import Mathlib

/-!
Shallow embedding of the void-orchestrator core (JakeHillion/void-orchestrator)
into Lean 4, together with theorems settling the frozen claims about the
natural-language specification.

Conventions of the embedding:
* Rust strings and byte buffers (`String`, `PathBuf`, `&[u8]`) are modelled as
  `List Nat`, one `Nat` per byte (paths and strings in the data model carry
  their UTF-8 bytes).
* Fallible Rust code returning `Result<T>` is modelled as `Except Error T`,
  with `Error` mirroring `src/error.rs`.
* Rust panics (`unwrap` on `None`, `unimplemented!`) are modelled by an outer
  `Option`: `none` means the Rust code panics.
* Blocking loops (`waitid` reap loop, trigger-worker loops) are modelled as
  functions of the finite trace of results the kernel hands back; an exhausted
  trace that never hit a terminating event yields `none` (the loop is still
  blocked), a terminating event yields `some outcome`.
* `HashMap`/`HashSet` are modelled as association lists / lists; the source
  only relies on membership, which is order-independent.
-/

namespace VO

/-- Bytes of a Rust `String` / `PathBuf` / buffer. -/
abbrev RStr := List Nat

/-- The `nix::Error` errnos this development distinguishes
(`nix::Error` is an errno wrapper). -/
inductive Errno
  | EINTR
  | ECHILD
  | EBADF
  | ENOENT
  | other (n : Nat)
  deriving DecidableEq, Repr

/-- `Error` from `src/error.rs`: the orchestrator's error taxonomy.
`Nix` carries the static operation name (a compile-time literal, kept as a
Lean `String`) and the errno; the payload-free I/O, JSON, bincode and ELF
variants do not carry their foreign payloads in this model. -/
inductive Error
  | Nix (msg : String) (src : Errno)
  | Io (src : Errno)
  | Json
  | Bincode
  | ElfRead
  | ElfWrite
  | BadPipe (name : RStr)
  | BadFileSocket (name : RStr)
  | NoSpecification
  | BadSpecType
  | BadTriggerArgument
  deriving DecidableEq, Repr

/-- Decidable equality for `Except`, so that concrete runs of the embedded
functions can be settled by `decide`. -/
instance {ε α : Type _} [DecidableEq ε] [DecidableEq α] : DecidableEq (Except ε α)
  | .error e, .error f =>
    if h : e = f then .isTrue (by subst h; rfl)
    else .isFalse (fun hh => h (by cases hh; rfl))
  | .error _, .ok _ => .isFalse (fun hh => Except.noConfusion hh)
  | .ok _, .error _ => .isFalse (fun hh => Except.noConfusion hh)
  | .ok a, .ok b =>
    if h : a = b then .isTrue (by subst h; rfl)
    else .isFalse (fun hh => h (by cases hh; rfl))

/-! ## Data model (`src/specification.rs`) -/

/-- `Pipe` argument endpoint selector from `src/specification.rs`. -/
inductive Pipe
  | Rx (s : RStr)
  | Tx (s : RStr)
  deriving DecidableEq, Repr

/-- `Pipe::get_name`. -/
def Pipe.get_name : Pipe → RStr
  | .Rx n => n
  | .Tx n => n

/-- `FileSocket` argument endpoint selector from `src/specification.rs`. -/
inductive FileSocket
  | Rx (s : RStr)
  | Tx (s : RStr)
  deriving DecidableEq, Repr

/-- `FileSocket::get_name`. -/
def FileSocket.get_name : FileSocket → RStr
  | .Rx n => n
  | .Tx n => n

/-- `AddressFamily` from `src/specification.rs`. -/
inductive AddressFamily
  | Inet
  | Inet6
  deriving DecidableEq, Repr

/-- `RpcSpecification` from `src/specification.rs`. -/
inductive RpcSpecification
  | OpenTcpSocket (family : Option AddressFamily) (port : Option Nat) (host : Option RStr)
  | OpenUdpSocket (family : Option AddressFamily) (port : Option Nat) (host : Option RStr)
  deriving DecidableEq, Repr

/-- `std::net::Ipv4Addr`: four octets. -/
structure Ipv4Addr where
  o0 : Nat
  o1 : Nat
  o2 : Nat
  o3 : Nat
  deriving DecidableEq, Repr

/-- `std::net::Ipv6Addr`: sixteen octets. -/
structure Ipv6Addr where
  o0 : Nat
  o1 : Nat
  o2 : Nat
  o3 : Nat
  o4 : Nat
  o5 : Nat
  o6 : Nat
  o7 : Nat
  o8 : Nat
  o9 : Nat
  o10 : Nat
  o11 : Nat
  o12 : Nat
  o13 : Nat
  o14 : Nat
  o15 : Nat
  deriving DecidableEq, Repr

/-- `std::net::SocketAddr`: V4 or V6 address plus port. -/
inductive SocketAddr
  | V4 (ip : Ipv4Addr) (port : Nat)
  | V6 (ip : Ipv6Addr) (port : Nat)
  deriving DecidableEq, Repr

abbrev PipeT := Pipe
abbrev FileSocketT := FileSocket

/-- `Arg` from `src/specification.rs`: one argv specifier. -/
inductive Arg
  | BinaryName
  | Entrypoint
  | File (path : RStr)
  | Pipe (p : PipeT)
  | FileSocket (s : FileSocketT)
  | Trigger
  | TcpListener (addr : SocketAddr)
  | Rpc (cmds : List RpcSpecification)
  | Trailing
  deriving DecidableEq, Repr

/-- `Trigger` from `src/specification.rs`. -/
inductive Trigger
  | Startup
  | Pipe (s : RStr)
  | FileSocket (s : RStr)
  deriving DecidableEq, Repr

/-- `Environment` from `src/specification.rs`: a void environment capability. -/
inductive Environment
  | Filesystem (host_path : RStr) (environment_path : RStr)
  | Hostname (s : RStr)
  | DomainName (s : RStr)
  | Procfs
  | Stdin
  | Stdout
  | Stderr
  deriving DecidableEq, Repr

/-- `Entrypoint` from `src/specification.rs`. The `HashSet<Environment>` is
modelled as a list. -/
structure Entrypoint where
  trigger : Trigger
  args : List Arg
  environment : List Environment
  deriving DecidableEq, Repr

/-- `Specification` from `src/specification.rs`. The
`HashMap<String, Entrypoint>` is modelled as an association list. -/
structure Specification where
  entrypoints : List (RStr × Entrypoint)
  deriving DecidableEq, Repr

/-- `Specification::pipes` (src/specification.rs:172-194): collect, over all
entrypoints, the pipe names read (a `Trigger::Pipe` trigger or an
`Arg::Pipe(Pipe::Rx)` argument) and written (an `Arg::Pipe(Pipe::Tx)`
argument), in iteration order. -/
def Specification.pipes (spec : Specification) : List RStr × List RStr :=
  (spec.entrypoints.flatMap fun e =>
      (match e.2.trigger with
        | Trigger.Pipe s => [s]
        | _ => []) ++
        e.2.args.filterMap fun a =>
          match a with
          | Arg.Pipe (Pipe.Rx s) => some s
          | _ => none,
   spec.entrypoints.flatMap fun e =>
      e.2.args.filterMap fun a =>
        match a with
        | Arg.Pipe (Pipe.Tx s) => some s
        | _ => none)

/-- `Specification::sockets` (src/specification.rs:196-218): collect the
socket names read (a `Trigger::FileSocket` trigger or an
`Arg::FileSocket(FileSocket::Rx)` argument) and written (an
`Arg::FileSocket(FileSocket::Tx)` argument). -/
def Specification.sockets (spec : Specification) : List RStr × List RStr :=
  (spec.entrypoints.flatMap fun e =>
      (match e.2.trigger with
        | Trigger.FileSocket s => [s]
        | _ => []) ++
        e.2.args.filterMap fun a =>
          match a with
          | Arg.FileSocket (FileSocket.Rx s) => some s
          | _ => none,
   spec.entrypoints.flatMap fun e =>
      e.2.args.filterMap fun a =>
        match a with
        | Arg.FileSocket (FileSocket.Tx s) => some s
        | _ => none)

/-- The `HashSet::insert` duplicate-detecting loops of
`Specification::validate`: insert each element of the list into the set,
returning `mkErr x` at the first `x` already present (the Rust loop returns
at the first `insert` that yields `false`). -/
def insertAll (mkErr : RStr → Error) (seen : List RStr) :
    List RStr → Except Error (List RStr)
  | [] => .ok seen
  | x :: xs => if x ∈ seen then .error (mkErr x) else insertAll mkErr (x :: seen) xs

/-- The pipe read/write matching loop of `Specification::validate`
(src/specification.rs:238-242): for each read pipe, remove it from the write
set, erroring if absent; returns the leftover write set. -/
def consumePipeReads (write_set : List RStr) :
    List RStr → Except Error (List RStr)
  | [] => .ok write_set
  | r :: rs =>
    if r ∈ write_set then consumePipeReads (write_set.erase r) rs
    else .error (Error.BadPipe r)

/-- The socket read/write matching loop of `Specification::validate`
(src/specification.rs:263-267): every read socket must be contained in the
write set (no removal: repeated writers are allowed). -/
def checkSocketReads (write_set : List RStr) :
    List RStr → Except Error Unit
  | [] => .ok ()
  | r :: rs =>
    if r ∈ write_set then checkSocketReads write_set rs
    else .error (Error.BadFileSocket r)

/-- Pipe-topology block of `Specification::validate`
(src/specification.rs:221-246): reads must be distinct, writes must be
distinct, and the two sets must match exactly. -/
def Specification.validatePipes (spec : Specification) : Except Error Unit := do
  let rw := spec.pipes
  let read_set ← insertAll Error.BadPipe [] rw.1
  let write_set ← insertAll Error.BadPipe [] rw.2
  let leftover ← consumePipeReads write_set read_set
  match leftover with
  | [] => .ok ()
  | p :: _ => .error (Error.BadPipe p)

/-- Socket-topology block of `Specification::validate`
(src/specification.rs:248-271): reads must be distinct, every read must have
at least one writer, and every writer must have a reader (the leftover of
`write_set - read_set` must be empty). -/
def Specification.validateSockets (spec : Specification) : Except Error Unit := do
  let rw := spec.sockets
  let read_set ← insertAll Error.BadFileSocket [] rw.1
  let write_set := rw.2.dedup
  checkSocketReads write_set read_set
  match write_set.filter (fun w => !decide (w ∈ read_set)) with
  | [] => .ok ()
  | s :: _ => .error (Error.BadFileSocket s)

/-- Trigger-argument block of `Specification::validate`
(src/specification.rs:273-282): an `Arg::Trigger` is only allowed in
entrypoints triggered by a pipe or a file socket. -/
def Specification.validateTriggerArgs (spec : Specification) : Except Error Unit :=
  if spec.entrypoints.all fun e =>
      !decide (Arg.Trigger ∈ e.2.args) ||
        (match e.2.trigger with
          | Trigger.Pipe _ => true
          | Trigger.FileSocket _ => true
          | Trigger.Startup => false)
  then .ok ()
  else .error Error.BadTriggerArgument

/-- `Specification::validate` (src/specification.rs:220-285): the pipe block,
then the socket block, then the trigger-argument block. -/
def Specification.validate (spec : Specification) : Except Error Unit := do
  spec.validatePipes
  spec.validateSockets
  spec.validateTriggerArgs

/-- Occurrence count of a name in a list of names. -/
def countName (n : RStr) : List RStr → Nat
  | [] => 0
  | x :: l => (if x = n then 1 else 0) + countName n l

/-- Number of Rx references to pipe `n` (pipe triggers plus `Pipe::Rx` args),
as counted by `Specification::pipes`. -/
def pipeRxCount (spec : Specification) (n : RStr) : Nat :=
  countName n (spec.pipes).1

/-- Number of Tx references to pipe `n` (`Pipe::Tx` args). -/
def pipeTxCount (spec : Specification) (n : RStr) : Nat :=
  countName n (spec.pipes).2

/-- All pipe names referenced by the specification. -/
def pipeNames (spec : Specification) : List RStr :=
  (spec.pipes).1 ++ (spec.pipes).2

/-- Number of Rx references to socket `n` (socket triggers plus
`FileSocket::Rx` args). -/
def socketRxCount (spec : Specification) (n : RStr) : Nat :=
  countName n (spec.sockets).1

/-- Number of Tx references to socket `n` (`FileSocket::Tx` args). -/
def socketTxCount (spec : Specification) (n : RStr) : Nat :=
  countName n (spec.sockets).2

/-- All socket names referenced by the specification. -/
def socketNames (spec : Specification) : List RStr :=
  (spec.sockets).1 ++ (spec.sockets).2

/-- Plan-level model of `run` (src/lib.rs:35-119) up to spawning: `validate`
runs first (line 49); only if it succeeds are the IPC fabric built and the
entrypoints spawned (lines 66-82). Returns the names of the spawned
entrypoints. -/
def runSpawnPlan (spec : Specification) : Except Error (List RStr) := do
  spec.validate
  pure (spec.entrypoints.map (·.1))

/-! ## Reap loop (`src/lib.rs:89-118`) -/

/-- One result of `waitid(ALL, WEXITED)` as seen by the reap loop. -/
inductive WaitEvent
  | exited (pid : Nat) (code : Int)
  | signaled (pid : Nat) (sig : Nat)
  | echild
  | failed (e : Errno)
  deriving DecidableEq, Repr

/-- The non-daemon reap loop of `run` (src/lib.rs:91-116), as a function of
the finite trace of `waitid` results. `exit_code` is the running exit code
(initially `exitcode::OK = 0`); a non-OK exit code overwrites it. `ECHILD`
breaks the loop returning the running code; any other `waitid` error is
returned as `Error::Nix("waitpid", e)`. `none` means the trace ended with
the loop still blocked in `waitid`. -/
def reapLoop (exit_code : Int) : List WaitEvent → Option (Except Error Int)
  | [] => none
  | .echild :: _ => some (.ok exit_code)
  | .failed e :: _ => some (.error (.Nix "waitpid" e))
  | .exited _ code :: rest =>
    reapLoop (if code ≠ 0 then code else exit_code) rest
  | .signaled _ _ :: rest => reapLoop exit_code rest

/-- Spec-side helper: the first non-OK exit code of a trace (what claim C1
says the loop returns). -/
def firstNonOkCode : List WaitEvent → Option Int
  | [] => none
  | .exited _ code :: rest =>
    if code ≠ 0 then some code else firstNonOkCode rest
  | _ :: rest => firstNonOkCode rest

/-- Spec-side helper: the last non-OK exit code of a trace (what the code
actually returns). -/
def lastNonOkCode : List WaitEvent → Option Int
  | [] => none
  | .exited _ code :: rest =>
    (lastNonOkCode rest).orElse fun _ => if code ≠ 0 then some code else none
  | _ :: rest => lastNonOkCode rest

/-- A trace prefix the reap loop runs through without stopping: no `ECHILD`
and no `waitid` failure. -/
def reapRunning : List WaitEvent → Bool
  | [] => true
  | .exited _ _ :: rest => reapRunning rest
  | .signaled _ _ :: rest => reapRunning rest
  | .echild :: _ => false
  | .failed _ :: _ => false

/-! ## IPC fabric (`src/lib.rs:141-223`) -/

/-- A raw file descriptor. -/
abbrev Fd := Nat

/-- `PipePair` from `src/lib.rs:141-146`: a named packet-mode pipe whose two
endpoints are `Option`s consumed by `take`. -/
structure PipePair where
  name : RStr
  read : Option Fd
  write : Option Fd
  deriving DecidableEq, Repr

/-- `PipePair::new` (src/lib.rs:149-162), with the two fresh fds returned by
`pipe2` passed in. -/
def PipePair.new (name : RStr) (readFd writeFd : Fd) : PipePair :=
  { name := name, read := some readFd, write := some writeFd }

/-- `PipePair::take_read` (src/lib.rs:164-168): `Option::take`, erroring with
`BadPipe(name)` when the endpoint was already taken. -/
def PipePair.take_read (p : PipePair) : Except Error (Fd × PipePair) :=
  match p.read with
  | some f => .ok (f, { p with read := none })
  | none => .error (.BadPipe p.name)

/-- `PipePair::take_write` (src/lib.rs:170-174). -/
def PipePair.take_write (p : PipePair) : Except Error (Fd × PipePair) :=
  match p.write with
  | some f => .ok (f, { p with write := none })
  | none => .error (.BadPipe p.name)

/-- `SocketPair` from `src/lib.rs:177-182`: the read end is an `Option`
consumed by `take_read`; the write end is owned and never consumed (field
`write` of the Rust struct, renamed `write_end` here because the method
`SocketPair::write` keeps the source name). -/
structure SocketPair where
  name : RStr
  read : Option Fd
  write_end : Fd
  deriving DecidableEq, Repr

/-- `SocketPair::new` (src/lib.rs:185-204). -/
def SocketPair.new (name : RStr) (readFd writeFd : Fd) : SocketPair :=
  { name := name, read := some readFd, write_end := writeFd }

/-- `SocketPair::take_read` (src/lib.rs:206-210). -/
def SocketPair.take_read (s : SocketPair) : Except Error (Fd × SocketPair) :=
  match s.read with
  | some f => .ok (f, { s with read := none })
  | none => .error (.BadFileSocket s.name)

/-- `SocketPair::write` (src/lib.rs:212-218): `dup` the shared write end;
the kernel's `dup` result is passed in, and a failure is wrapped as
`Error::Nix("dup", e)`. The pair itself is not consumed. -/
def SocketPair.write (s : SocketPair) (dupRes : Except Errno Fd) : Except Error Fd :=
  match dupRes with
  | .ok fd => .ok fd
  | .error e => .error (.Nix "dup" e)

/-! ## Trigger payload arguments (`src/spawner/mod.rs:40-62`, C8) -/

/-- UTF-8 validity of a byte sequence (the check done by
`std::str::from_utf8`), as a byte-level automaton: `k` pending continuation
bytes, of which the next must lie in `lo..=hi`. -/
def validUTF8Go : Nat → Nat → Nat → List Nat → Bool
  | 0, _, _, [] => true
  | _ + 1, _, _, [] => false
  | 0, _, _, b :: rest =>
    if b ≤ 0x7F then validUTF8Go 0 0 0 rest
    else if 0xC2 ≤ b && b ≤ 0xDF then validUTF8Go 1 0x80 0xBF rest
    else if b = 0xE0 then validUTF8Go 2 0xA0 0xBF rest
    else if (0xE1 ≤ b && b ≤ 0xEC) || b = 0xEE || b = 0xEF then validUTF8Go 2 0x80 0xBF rest
    else if b = 0xED then validUTF8Go 2 0x80 0x9F rest
    else if b = 0xF0 then validUTF8Go 3 0x90 0xBF rest
    else if 0xF1 ≤ b && b ≤ 0xF3 then validUTF8Go 3 0x80 0xBF rest
    else if b = 0xF4 then validUTF8Go 3 0x80 0x8F rest
    else false
  | k + 1, lo, hi, b :: rest =>
    if lo ≤ b && b ≤ hi then validUTF8Go k 0x80 0xBF rest else false

/-- A byte sequence is valid UTF-8. -/
def validUTF8 (l : List Nat) : Bool :=
  validUTF8Go 0 0 0 l

/-- `CString::new`: fails (the source `unwrap`s, i.e. panics) iff the bytes
contain an interior NUL. -/
def cstringNew (s : RStr) : Option RStr :=
  if 0 ∈ s then none else some s

/-- Little-endian decimal digits of `n` (`fuel`-bounded division loop). -/
def decimalDigitsAux : Nat → Nat → List Nat
  | 0, _ => []
  | fuel + 1, n => if n = 0 then [] else n % 10 :: decimalDigitsAux fuel (n / 10)

/-- Bytes of Rust's `n.to_string()` for a non-negative integer: most
significant decimal digit first, ASCII. -/
def decimalBytes (n : Nat) : RStr :=
  if n = 0 then [48] else ((decimalDigitsAux n n).map (· + 48)).reverse

/-- Convert each received fd to its decimal `CString`
(`fs.drain(..).map(|f| CString::new(f.into_raw_fd().to_string()).unwrap())`),
failing if any conversion panics. -/
def cstringFdArgs : List Nat → Option (List RStr)
  | [] => some []
  | f :: rest =>
    match cstringNew (decimalBytes f), cstringFdArgs rest with
    | some c, some cs => some (c :: cs)
    | _, _ => none

/-- `TriggerData` from `src/spawner/mod.rs:40-49`: the payload handed to the
child's `Trigger` argument. -/
inductive TriggerData
  | None
  | Pipe (s : RStr)
  | FileSocket (fds : List Fd)
  deriving DecidableEq, Repr

/-- `TriggerData::args` (src/spawner/mod.rs:51-62): no argument for
`None`, one `CString` of the payload for `Pipe` (panicking on interior NUL),
and one decimal fd-number `CString` per received descriptor for
`FileSocket`. -/
def TriggerData.args : TriggerData → Option (List RStr)
  | .None => some []
  | .Pipe s => (cstringNew s).map (fun c => [c])
  | .FileSocket fds => cstringFdArgs fds

/-- The pipe-trigger child's `Trigger`-argument preparation
(src/spawner/mod.rs:190-194 composed with `TriggerData::args`):
`std::str::from_utf8(payload).unwrap()` (panics on invalid UTF-8), then
`TriggerData::Pipe(s).args()`. -/
def pipeTriggerArgPrep (payload : List Nat) : Option (List RStr) :=
  if validUTF8 payload then TriggerData.args (.Pipe payload) else none

/-! ## Trigger-worker loops (`src/spawner/mod.rs:155-291`, C6) -/

/-- One result of the blocking `read` in `Spawner::pipe_trigger`. -/
inductive PipeRead
  | data (bytes : List Nat)
  | interrupted
  | failed (e : Errno)
  deriving DecidableEq, Repr

/-- `Spawner::pipe_trigger`'s worker loop (src/spawner/mod.rs:159-211) over
a finite trace of read results. `spawn` abstracts building and spawning one
nested void for a payload (`prepare_ambient` + `VoidBuilder::spawn`);
`interrupted` (`ErrorKind::Interrupted`) and a zero-byte read both return
`Ok(())`; any other read error is returned as `Error::Io`. -/
def pipe_trigger (spawn : List Nat → Except Error Unit) :
    List PipeRead → Option (Except Error Unit)
  | [] => none
  | .interrupted :: _ => some (.ok ())
  | .failed e :: _ => some (.error (.Io e))
  | .data bytes :: rest =>
    if bytes.length = 0 then some (.ok ())
    else
      match spawn bytes with
      | .ok _ => pipe_trigger spawn rest
      | .error e => some (.error e)

/-- One result of the blocking `recvmsg` in `Spawner::file_socket_trigger`:
a message is the list of its `SCM_RIGHTS` control messages, each carrying a
list of received fds. -/
inductive SockRecv
  | msg (cmsgs : List (List Fd))
  | interrupted
  | failed (e : Errno)
  deriving DecidableEq, Repr

/-- The per-message loop of `Spawner::file_socket_trigger`
(src/spawner/mod.rs:242-289): spawn one nested void per `SCM_RIGHTS`
control message, stopping at the first error. -/
def spawnEach (spawn : List Fd → Except Error Unit) :
    List (List Fd) → Except Error Unit
  | [] => .ok ()
  | c :: cs =>
    match spawn c with
    | .ok _ => spawnEach spawn cs
    | .error e => .error e

/-- `Spawner::file_socket_trigger`'s worker loop (src/spawner/mod.rs:218-291)
over a finite trace of `recvmsg` results. `EINTR` returns `Ok(())`; any
other `recvmsg` error is returned as `Error::Nix("recvmsg", e)`. -/
def file_socket_trigger (spawn : List Fd → Except Error Unit) :
    List SockRecv → Option (Except Error Unit)
  | [] => none
  | .interrupted :: _ => some (.ok ())
  | .failed e :: _ => some (.error (.Nix "recvmsg" e))
  | .msg cmsgs :: rest =>
    match spawnEach spawn cmsgs with
    | .ok _ => file_socket_trigger spawn rest
    | .error e => some (.error e)

/-- The supervisor closure wrapping a trigger worker
(src/spawner/mod.rs:111-117 and 134-140): `Ok(())` becomes
`exitcode::OK = 0`, an error becomes exit status 1. -/
def triggerClosureStatus : Option (Except Error Unit) → Option Int
  | none => none
  | some (.ok _) => some 0
  | some (.error _) => some 1

/-- Exit status of the pipe-trigger supervisor closure on a trace. -/
def pipeTriggerStatus (spawn : List Nat → Except Error Unit)
    (events : List PipeRead) : Option Int :=
  triggerClosureStatus (pipe_trigger spawn events)

/-- Exit status of the file-socket-trigger supervisor closure on a trace. -/
def fileSocketTriggerStatus (spawn : List Fd → Except Error Unit)
    (events : List SockRecv) : Option Int :=
  triggerClosureStatus (file_socket_trigger spawn events)

/-! ## Ambient argument preparation (`src/spawner/args.rs`, C10) -/

/-- `PreparedArg` from `src/spawner/args.rs:69-94` (the source enum has no
`Rpc` variant). -/
inductive PreparedArg
  | BinaryName
  | Entrypoint
  | File (f : Fd)
  | Pipe (f : Fd)
  | FileSocket (f : Fd)
  | Trigger
  | TcpListener (socket : Fd)
  | Trailing
  deriving DecidableEq, Repr

/-- The ambient authority `PreparedArg::prepare_ambient` needs from the
parent: opening files, binding TCP listeners, duplicating fds. -/
structure AmbientWorld where
  openFile : RStr → Except Error Fd
  bindTcp : SocketAddr → Except Error Fd
  dup : Fd → Except Errno Fd

/-- `PreparedArg::prepare_ambient` (src/spawner/args.rs:131-161), the
non-`mut` variant used by the trigger workers. `Arg::Pipe` and
`Arg::FileSocket(Rx)` are unconditional errors; `FileSocket(Tx)` duplicates
the fabric's shared write end (`unwrap` panic, modelled as `none`, if the
socket name is absent); the source match has no `Arg::Rpc` arm, modelled as
`none`. Returns the prepared argument and the updated keep-fd list of the
builder. -/
def PreparedArg.prepare_ambient (w : AmbientWorld)
    (sockets : List (RStr × SocketPair)) (builder : List Fd) :
    Arg → Option (Except Error (PreparedArg × List Fd))
  | Arg.Pipe p => some (.error (.BadPipe p.get_name))
  | Arg.FileSocket (FileSocket.Rx s) => some (.error (.BadFileSocket s))
  | Arg.FileSocket (FileSocket.Tx s) =>
    match (sockets.find? (fun kv => kv.1 = s)).map (·.2) with
    | none => none
    | some pair =>
      some (match pair.write (w.dup pair.write_end) with
        | .ok fd => .ok (PreparedArg.FileSocket fd, builder ++ [fd])
        | .error e => .error e)
  | Arg.File path =>
    some (match w.openFile path with
      | .ok fd => .ok (PreparedArg.File fd, builder ++ [fd])
      | .error e => .error e)
  | Arg.TcpListener addr =>
    some (match w.bindTcp addr with
      | .ok fd => .ok (PreparedArg.TcpListener fd, builder ++ [fd])
      | .error e => .error e)
  | Arg.BinaryName => some (.ok (PreparedArg.BinaryName, builder))
  | Arg.Entrypoint => some (.ok (PreparedArg.Entrypoint, builder))
  | Arg.Trigger => some (.ok (PreparedArg.Trigger, builder))
  | Arg.Trailing => some (.ok (PreparedArg.Trailing, builder))
  | Arg.Rpc _ => none

/-- The `?` operator over panic-aware fallible results: propagate a panic
(`none`) or an error, continue on success. -/
def bindPanic {α β : Type _} (x : Option (Except Error α))
    (f : α → Option (Except Error β)) : Option (Except Error β) :=
  match x with
  | none => none
  | some (.error e) => some (.error e)
  | some (.ok v) => f v

/-- `PreparedArgs::prepare_ambient` (src/spawner/args.rs:40-52): prepare each
argument in order, short-circuiting at the first error (`?`). -/
def PreparedArgs.prepare_ambient (w : AmbientWorld)
    (sockets : List (RStr × SocketPair)) (builder : List Fd) :
    List Arg → Option (Except Error (List PreparedArg × List Fd))
  | [] => some (.ok ([], builder))
  | a :: rest =>
    bindPanic (PreparedArg.prepare_ambient w sockets builder a) fun pb =>
      bindPanic (PreparedArgs.prepare_ambient w sockets pb.2 rest) fun qb =>
        some (.ok (pb.1 :: qb.1, qb.2))

/-- An argument the trigger workers' ambient preparation rejects
unconditionally: any `Arg::Pipe`, or an `Arg::FileSocket(Rx)`. -/
def offendingArg : Arg → Bool
  | Arg.Pipe _ => true
  | Arg.FileSocket (FileSocket.Rx _) => true
  | _ => false

/-- The error `prepare_ambient` raises for an offending argument. -/
def offendingErr : Arg → Option Error
  | Arg.Pipe p => some (.BadPipe p.get_name)
  | Arg.FileSocket (FileSocket.Rx s) => some (.BadFileSocket s)
  | _ => none

/-! ## File-descriptor voiding (`src/void.rs:388-446`, C5) -/

/-- What an open descriptor refers to: the file it pointed at before voiding
(identified by its original descriptor number) or the `/dev/null` opened
during voiding. -/
inductive FdTarget
  | orig (n : Nat)
  | devnull
  deriving DecidableEq, Repr

/-- One open descriptor: its referent and its `FD_CLOEXEC` flag. -/
structure FdEntry where
  target : FdTarget
  cloexec : Bool
  deriving DecidableEq, Repr

/-- The process's descriptor table: an association list from fd numbers to
entries (absent key = closed fd). -/
abbrev FdTable := List (Nat × FdEntry)

/-- The entry of fd `fd`, or `none` if closed. -/
def lookupFd (t : FdTable) (fd : Nat) : Option FdEntry :=
  (t.find? fun p => decide (p.1 = fd)).map (·.2)

/-- Close fd `fd`. -/
def removeFd (t : FdTable) (fd : Nat) : FdTable :=
  t.filter fun p => !decide (p.1 = fd)

/-- Point fd `fd` at entry `e` (insert or overwrite). -/
def setFd (t : FdTable) (fd : Nat) (e : FdEntry) : FdTable :=
  (fd, e) :: removeFd t fd

/-- The fd numbers currently open. -/
def fdKeys (t : FdTable) : List Nat :=
  t.map (·.1)

/-- `closer.closefrom(3)` with `closer.keep_fds(keep)`
(src/void.rs:389-396, the `close_fds` crate): close every open fd `≥ 3` not
in `keep`. -/
def closefrom3 (keep : List Nat) (t : FdTable) : FdTable :=
  t.filter fun p => decide (p.1 < 3) || decide (p.1 ∈ keep)

/-- Scan upward from `n` for a descriptor number not in `keys`
(`fuel`-bounded). -/
def leastFreeAux (keys : List Nat) : Nat → Nat → Nat
  | 0, n => n
  | fuel + 1, n => if n ∈ keys then leastFreeAux keys fuel (n + 1) else n

/-- The lowest unused descriptor number — what `open(2)` returns for the
fresh `/dev/null`. -/
def leastFree (keys : List Nat) : Nat :=
  leastFreeAux keys (keys.foldr max 0 + 1) 0

/-- `dup2(src, dst)`: make `dst` refer to `src`'s referent with the
`FD_CLOEXEC` flag clear; a no-op when `src = dst`. (`src` is always open at
the one call site, so the `EBADF` failure arm is modelled as a no-op.) -/
def dup2Model (t : FdTable) (src dst : Nat) : FdTable :=
  if src = dst then t
  else
    match lookupFd t src with
    | some e => setFd t dst { target := e.target, cloexec := false }
    | none => t

/-- The `for stdfd in &[0, 1, 2]` loop of `void_file_descriptors`
(src/void.rs:398-418): for each standard fd not in `keep`, lazily open
`/dev/null` once (Rust's `File::open` sets `O_CLOEXEC`; the kernel returns
the lowest unused fd) and `dup2` it over the standard fd. Returns the table
and the temporary `/dev/null` fd, if one was opened. -/
def voidStdFds (keep : List Nat) : FdTable → List Nat → Option Nat → FdTable × Option Nat
  | t, [], nullfd => (t, nullfd)
  | t, stdfd :: rest, nullfd =>
    if stdfd ∈ keep then voidStdFds keep t rest nullfd
    else
      match nullfd with
      | some f => voidStdFds keep (dup2Model t f stdfd) rest (some f)
      | none =>
        let f := leastFree (fdKeys t)
        let t1 := setFd t f { target := .devnull, cloexec := true }
        voidStdFds keep (dup2Model t1 f stdfd) rest (some f)

/-- The end of the block at src/void.rs:399-418: the `Option<File>` holding
the temporary `/dev/null` fd is dropped, closing it. -/
def dropNull : FdTable × Option Nat → FdTable
  | (t, none) => t
  | (t, some f) => removeFd t f

/-- The `for fd in keep` loop of `void_file_descriptors`
(src/void.rs:429-443): `fcntl(F_GETFD)` — an error (`EBADF` for a closed
fd) propagates — then `fcntl(F_SETFD)` with `FD_CLOEXEC` removed. -/
def clearCloexec (t : FdTable) : List Nat → Except Error FdTable
  | [] => .ok t
  | fd :: rest =>
    match lookupFd t fd with
    | none => .error (.Nix "fcntl" .EBADF)
    | some e => clearCloexec (setFd t fd { target := e.target, cloexec := false }) rest

/-- `VoidBuilder::void_file_descriptors` (src/void.rs:388-446) as a
transformer of the descriptor table: close everything `≥ 3` outside `keep`,
overwrite the non-kept standard fds with a freshly opened `/dev/null` via
`dup2` (then drop the temporary fd), and clear `FD_CLOEXEC` on every kept
fd. (The conditional `umount2("/dev/null")` between the last two steps does
not touch the descriptor table.) -/
def void_file_descriptors (keep : List Nat) (t : FdTable) : Except Error FdTable :=
  clearCloexec (dropNull (voidStdFds keep (closefrom3 keep t) [0, 1, 2] none)) keep

/-! ## Packaging (`src/pack.rs`, C9)

`pack_binary` serialises the specification with
`bincode::DefaultOptions::new()` — varint integer encoding, little-endian,
trailing bytes rejected — and appends it as a section named
`void_specification` to a copy of the binary's sections;
`extract_specification` finds the first section of that name and
deserialises it. The byte-level encoding below follows bincode 1.x.
-/

/-- `k` bytes of `n`, little endian. -/
def writeLE : Nat → Nat → List Nat
  | 0, _ => []
  | k + 1, n => n % 256 :: writeLE k (n / 256)

/-- Read `k` little-endian bytes. -/
def readLE : Nat → List Nat → Option (Nat × List Nat)
  | 0, s => some (0, s)
  | _ + 1, [] => none
  | k + 1, b :: s => (readLE k s).map fun p => (b + 256 * p.1, p.2)

/-- bincode varint encoding of an unsigned integer: values below 251 are a
single byte; then markers 251/252/253 introduce 2-, 4- and 8-byte
little-endian forms. -/
def encodeVarint (n : Nat) : List Nat :=
  if n < 251 then [n]
  else if n < 2 ^ 16 then 251 :: writeLE 2 n
  else if n < 2 ^ 32 then 252 :: writeLE 4 n
  else 253 :: writeLE 8 n

/-- bincode varint decoding. -/
def decodeVarint : List Nat → Option (Nat × List Nat)
  | [] => none
  | b :: s =>
    if b < 251 then some (b, s)
    else if b = 251 then readLE 2 s
    else if b = 252 then readLE 4 s
    else if b = 253 then readLE 8 s
    else none

/-- `deserialize_u16`: a varint whose value must fit in 16 bits. -/
def decodeU16 (s : List Nat) : Option (Nat × List Nat) :=
  (decodeVarint s).bind fun p => if p.1 < 2 ^ 16 then some p else none

/-- One raw byte (`u8` is exempt from varint encoding). -/
def decodeU8 : List Nat → Option (Nat × List Nat)
  | [] => none
  | b :: s => some (b, s)

/-- Read exactly `k` bytes. -/
def readN (k : Nat) (s : List Nat) : Option (List Nat × List Nat) :=
  if k ≤ s.length then some (s.take k, s.drop k) else none

/-- A Rust `String`/`PathBuf` serialises as its varint byte length followed
by its UTF-8 bytes. -/
def encodeRStr (s : RStr) : List Nat :=
  encodeVarint s.length ++ s

/-- Deserialising a `String` reads the length, takes that many bytes and
validates UTF-8. -/
def decodeRStr (s : List Nat) : Option (RStr × List Nat) :=
  (decodeVarint s).bind fun p =>
    (readN p.1 p.2).bind fun q =>
      if validUTF8 q.1 then some (q.1, q.2) else none

/-- `Option<T>`: byte 0 for `None`, byte 1 followed by the payload for
`Some`. -/
def encodeOpt {α : Type} (enc : α → List Nat) : Option α → List Nat
  | none => [0]
  | some x => 1 :: enc x

/-- Decode an `Option<T>`. -/
def decodeOpt {α : Type} (dec : List Nat → Option (α × List Nat)) :
    List Nat → Option (Option α × List Nat)
  | [] => none
  | 0 :: s => some (none, s)
  | 1 :: s => (dec s).map fun p => (some p.1, p.2)
  | _ :: _ => none

/-- A sequence (`Vec`, `HashSet`, `HashMap`): varint length followed by the
encoded elements. -/
def encodeListOf {α : Type} (enc : α → List Nat) (l : List α) : List Nat :=
  encodeVarint l.length ++ (l.map enc).flatten

/-- Decode `n` consecutive elements. -/
def decodeMany {α : Type} (dec : List Nat → Option (α × List Nat)) :
    Nat → List Nat → Option (List α × List Nat)
  | 0, s => some ([], s)
  | n + 1, s =>
    (dec s).bind fun p =>
      (decodeMany dec n p.2).map fun q => (p.1 :: q.1, q.2)

/-- Decode a sequence. -/
def decodeListOf {α : Type} (dec : List Nat → Option (α × List Nat))
    (s : List Nat) : Option (List α × List Nat) :=
  (decodeVarint s).bind fun p => decodeMany dec p.1 p.2

/-- `AddressFamily`: variant tag only. -/
def encodeAddressFamily : AddressFamily → List Nat
  | .Inet => [0]
  | .Inet6 => [1]

def decodeAddressFamily : List Nat → Option (AddressFamily × List Nat)
  | 0 :: s => some (.Inet, s)
  | 1 :: s => some (.Inet6, s)
  | _ => none

/-- `RpcSpecification`: variant tag, then the three `Option` fields. -/
def encodeRpcSpecification : RpcSpecification → List Nat
  | .OpenTcpSocket family port host =>
    0 :: (encodeOpt encodeAddressFamily family ++
      encodeOpt encodeVarint port ++ encodeOpt encodeRStr host)
  | .OpenUdpSocket family port host =>
    1 :: (encodeOpt encodeAddressFamily family ++
      encodeOpt encodeVarint port ++ encodeOpt encodeRStr host)

def decodeRpcFields (s : List Nat) :
    Option ((Option AddressFamily × Option Nat × Option RStr) × List Nat) :=
  (decodeOpt decodeAddressFamily s).bind fun p1 =>
    (decodeOpt decodeU16 p1.2).bind fun p2 =>
      (decodeOpt decodeRStr p2.2).map fun p3 => ((p1.1, p2.1, p3.1), p3.2)

def decodeRpcSpecification : List Nat → Option (RpcSpecification × List Nat)
  | 0 :: s =>
    (decodeRpcFields s).map fun p => (.OpenTcpSocket p.1.1 p.1.2.1 p.1.2.2, p.2)
  | 1 :: s =>
    (decodeRpcFields s).map fun p => (.OpenUdpSocket p.1.1 p.1.2.1 p.1.2.2, p.2)
  | _ => none

/-- `Ipv4Addr`: its four octets (`[u8; 4]`). -/
def encodeIpv4 (ip : Ipv4Addr) : List Nat :=
  [ip.o0, ip.o1, ip.o2, ip.o3]

def decodeIpv4 : List Nat → Option (Ipv4Addr × List Nat)
  | a :: b :: c :: d :: s => some (⟨a, b, c, d⟩, s)
  | _ => none

/-- `Ipv6Addr`: its sixteen octets (`[u8; 16]`). -/
def encodeIpv6 (ip : Ipv6Addr) : List Nat :=
  [ip.o0, ip.o1, ip.o2, ip.o3, ip.o4, ip.o5, ip.o6, ip.o7,
   ip.o8, ip.o9, ip.o10, ip.o11, ip.o12, ip.o13, ip.o14, ip.o15]

def decodeIpv6 : List Nat → Option (Ipv6Addr × List Nat)
  | a0 :: a1 :: a2 :: a3 :: a4 :: a5 :: a6 :: a7 ::
      a8 :: a9 :: a10 :: a11 :: a12 :: a13 :: a14 :: a15 :: s =>
    some (⟨a0, a1, a2, a3, a4, a5, a6, a7, a8, a9, a10, a11, a12, a13, a14, a15⟩, s)
  | _ => none

/-- `SocketAddr`: variant tag, IP octets, then the `u16` port. -/
def encodeSocketAddr : SocketAddr → List Nat
  | .V4 ip port => 0 :: (encodeIpv4 ip ++ encodeVarint port)
  | .V6 ip port => 1 :: (encodeIpv6 ip ++ encodeVarint port)

def decodeSocketAddr : List Nat → Option (SocketAddr × List Nat)
  | 0 :: s =>
    (decodeIpv4 s).bind fun p =>
      (decodeU16 p.2).map fun q => (.V4 p.1 q.1, q.2)
  | 1 :: s =>
    (decodeIpv6 s).bind fun p =>
      (decodeU16 p.2).map fun q => (.V6 p.1 q.1, q.2)
  | _ => none

/-- `Pipe`: variant tag and name. -/
def encodePipe : Pipe → List Nat
  | .Rx s => 0 :: encodeRStr s
  | .Tx s => 1 :: encodeRStr s

def decodePipe : List Nat → Option (Pipe × List Nat)
  | 0 :: s => (decodeRStr s).map fun p => (.Rx p.1, p.2)
  | 1 :: s => (decodeRStr s).map fun p => (.Tx p.1, p.2)
  | _ => none

/-- `FileSocket`: variant tag and name. -/
def encodeFileSocket : FileSocket → List Nat
  | .Rx s => 0 :: encodeRStr s
  | .Tx s => 1 :: encodeRStr s

def decodeFileSocket : List Nat → Option (FileSocket × List Nat)
  | 0 :: s => (decodeRStr s).map fun p => (.Rx p.1, p.2)
  | 1 :: s => (decodeRStr s).map fun p => (.Tx p.1, p.2)
  | _ => none

/-- `Trigger`: variant tag and, for pipes and sockets, the channel name. -/
def encodeTrigger : Trigger → List Nat
  | .Startup => [0]
  | .Pipe s => 1 :: encodeRStr s
  | .FileSocket s => 2 :: encodeRStr s

def decodeTrigger : List Nat → Option (Trigger × List Nat)
  | 0 :: s => some (.Startup, s)
  | 1 :: s => (decodeRStr s).map fun p => (.Pipe p.1, p.2)
  | 2 :: s => (decodeRStr s).map fun p => (.FileSocket p.1, p.2)
  | _ => none

/-- `Arg`: variant tag (declaration order) and payload. -/
def encodeArg : Arg → List Nat
  | .BinaryName => [0]
  | .Entrypoint => [1]
  | .File path => 2 :: encodeRStr path
  | .Pipe p => 3 :: encodePipe p
  | .FileSocket s => 4 :: encodeFileSocket s
  | .Trigger => [5]
  | .TcpListener addr => 6 :: encodeSocketAddr addr
  | .Rpc cmds => 7 :: encodeListOf encodeRpcSpecification cmds
  | .Trailing => [8]

def decodeArg : List Nat → Option (Arg × List Nat)
  | 0 :: s => some (.BinaryName, s)
  | 1 :: s => some (.Entrypoint, s)
  | 2 :: s => (decodeRStr s).map fun p => (.File p.1, p.2)
  | 3 :: s => (decodePipe s).map fun p => (.Pipe p.1, p.2)
  | 4 :: s => (decodeFileSocket s).map fun p => (.FileSocket p.1, p.2)
  | 5 :: s => some (.Trigger, s)
  | 6 :: s => (decodeSocketAddr s).map fun p => (.TcpListener p.1, p.2)
  | 7 :: s => (decodeListOf decodeRpcSpecification s).map fun p => (.Rpc p.1, p.2)
  | 8 :: s => some (.Trailing, s)
  | _ => none

/-- `Environment`: variant tag (declaration order) and payload. -/
def encodeEnvironment : Environment → List Nat
  | .Filesystem host env => 0 :: (encodeRStr host ++ encodeRStr env)
  | .Hostname s => 1 :: encodeRStr s
  | .DomainName s => 2 :: encodeRStr s
  | .Procfs => [3]
  | .Stdin => [4]
  | .Stdout => [5]
  | .Stderr => [6]

def decodeEnvironment : List Nat → Option (Environment × List Nat)
  | 0 :: s =>
    (decodeRStr s).bind fun p =>
      (decodeRStr p.2).map fun q => (.Filesystem p.1 q.1, q.2)
  | 1 :: s => (decodeRStr s).map fun p => (.Hostname p.1, p.2)
  | 2 :: s => (decodeRStr s).map fun p => (.DomainName p.1, p.2)
  | 3 :: s => some (.Procfs, s)
  | 4 :: s => some (.Stdin, s)
  | 5 :: s => some (.Stdout, s)
  | 6 :: s => some (.Stderr, s)
  | _ => none

/-- `Entrypoint`: its fields in declaration order. -/
def encodeEntrypoint (e : Entrypoint) : List Nat :=
  encodeTrigger e.trigger ++ encodeListOf encodeArg e.args ++
    encodeListOf encodeEnvironment e.environment

def decodeEntrypoint (s : List Nat) : Option (Entrypoint × List Nat) :=
  (decodeTrigger s).bind fun p =>
    (decodeListOf decodeArg p.2).bind fun q =>
      (decodeListOf decodeEnvironment q.2).map fun r =>
        ({ trigger := p.1, args := q.1, environment := r.1 }, r.2)

/-- One `HashMap` entry: key then value. -/
def encodeEntry (kv : RStr × Entrypoint) : List Nat :=
  encodeRStr kv.1 ++ encodeEntrypoint kv.2

def decodeEntry (s : List Nat) : Option ((RStr × Entrypoint) × List Nat) :=
  (decodeRStr s).bind fun p =>
    (decodeEntrypoint p.2).map fun q => ((p.1, q.1), q.2)

/-- `Specification`: its single field, the entrypoint map (varint length
plus key/value pairs). -/
def encodeSpecification (spec : Specification) : List Nat :=
  encodeListOf encodeEntry spec.entrypoints

def decodeSpecification (s : List Nat) : Option (Specification × List Nat) :=
  (decodeListOf decodeEntry s).map fun p => (⟨p.1⟩, p.2)

/-! ### Typing side conditions

In Rust these bounds hold by construction (`u8`, `u16`, `usize`, UTF-8
`String`); the model states them explicitly. -/

def wfStr (s : RStr) : Bool :=
  decide (s.length < 2 ^ 64) && validUTF8 s

def wfOpt {α : Type} (wf : α → Bool) : Option α → Bool
  | none => true
  | some x => wf x

def wfList {α : Type} (wf : α → Bool) (l : List α) : Bool :=
  decide (l.length < 2 ^ 64) && l.all wf

def wfRpcSpecification : RpcSpecification → Bool
  | .OpenTcpSocket _ port host =>
    wfOpt (fun p => decide (p < 2 ^ 16)) port && wfOpt wfStr host
  | .OpenUdpSocket _ port host =>
    wfOpt (fun p => decide (p < 2 ^ 16)) port && wfOpt wfStr host

def wfSocketAddr : SocketAddr → Bool
  | .V4 _ port => decide (port < 2 ^ 16)
  | .V6 _ port => decide (port < 2 ^ 16)

def wfArg : Arg → Bool
  | .File path => wfStr path
  | .Pipe p => wfStr p.get_name
  | .FileSocket s => wfStr s.get_name
  | .TcpListener addr => wfSocketAddr addr
  | .Rpc cmds => wfList wfRpcSpecification cmds
  | _ => true

def wfTrigger : Trigger → Bool
  | .Startup => true
  | .Pipe s => wfStr s
  | .FileSocket s => wfStr s

def wfEnvironment : Environment → Bool
  | .Filesystem host env => wfStr host && wfStr env
  | .Hostname s => wfStr s
  | .DomainName s => wfStr s
  | _ => true

def wfEntrypoint (e : Entrypoint) : Bool :=
  wfTrigger e.trigger && wfList wfArg e.args && wfList wfEnvironment e.environment

def wfSpecification (spec : Specification) : Bool :=
  wfList (fun kv => wfStr kv.1 && wfEntrypoint kv.2) spec.entrypoints

/-! ### Object files and the `void_specification` section -/

/-- A section kind (`object::SectionKind`): the copy preserves whatever the
input had; the appended specification section uses `SectionKind::Other`. -/
inductive SectionKind
  | Other
  | Known (code : Nat)
  deriving DecidableEq, Repr

/-- One object-file section as `pack_binary` sees it: segment name bytes,
section name bytes, kind and contents. -/
structure ObjSection where
  segment : List Nat
  name : List Nat
  kind : SectionKind
  data : List Nat
  deriving DecidableEq, Repr

/-- An object file: format/architecture/endianness metadata (copied
verbatim) and its sections. -/
structure ObjectFile where
  format : Nat
  architecture : Nat
  littleEndian : Bool
  sections : List ObjSection
  deriving DecidableEq, Repr

/-- The bytes of `"void_specification"` (src/pack.rs:13). -/
def specificationSectionName : List Nat :=
  [118, 111, 105, 100, 95, 115, 112, 101, 99, 105, 102, 105, 99, 97, 116, 105, 111, 110]

/-- `output_object.segment_name(StandardSegment::Debug)`: the debug segment
name (empty for ELF). -/
def debugSegmentName : List Nat := []

/-- `pack_binary` (src/pack.rs:15-55): copy every input section (segment
name, section name, kind, data), then append one section named
`void_specification` in the debug segment, of kind `Other`, containing the
bincode-serialised specification. (File and ELF I/O errors are outside the
model.) -/
def pack_binary (binary : ObjectFile) (spec : Specification) : ObjectFile :=
  { format := binary.format
    architecture := binary.architecture
    littleEndian := binary.littleEndian
    sections := binary.sections ++
      [{ segment := debugSegmentName
         name := specificationSectionName
         kind := SectionKind.Other
         data := encodeSpecification spec }] }

/-- `extract_specification` (src/pack.rs:57-71): find the first section
named `void_specification` (`section_by_name`); `Ok(None)` if there is
none; otherwise deserialise its contents, rejecting trailing bytes
(`bincode::Error` becomes `Error::Bincode`). -/
def extract_specification (binary : ObjectFile) : Except Error (Option Specification) :=
  match binary.sections.find? fun sec => decide (sec.name = specificationSectionName) with
  | none => .ok none
  | some sec =>
    match decodeSpecification sec.data with
    | some (spec, []) => .ok (some spec)
    | _ => .error .Bincode

/-- A binary that already carries a (corrupt) `void_specification` section. -/
def prePackedBinary : ObjectFile :=
  { format := 0, architecture := 0, littleEndian := true,
    sections := [{ segment := [], name := specificationSectionName,
                   kind := SectionKind.Other, data := [] }] }

/-- A binary with one ordinary section. -/
def plainBinary : ObjectFile :=
  { format := 0, architecture := 0, littleEndian := true,
    sections := [{ segment := [], name := [46, 116, 101, 120, 116],
                   kind := SectionKind.Known 1, data := [1, 2, 3] }] }

/-- The empty specification. -/
def emptySpec : Specification := { entrypoints := [] }

/-! ## Concrete specifications used by witnesses -/

/-- A valid specification: entrypoint `a` is triggered by pipe `p` and takes
the trigger payload; entrypoint `b` writes pipe `p`. -/
def specPipeGood : Specification :=
  { entrypoints :=
      [([97], { trigger := .Pipe [112], args := [.Trigger], environment := [] }),
       ([98], { trigger := .Startup, args := [.Pipe (.Tx [112])], environment := [] })] }

/-- An invalid specification: entrypoints `a` and `b` are both readers of
pipe `x`. -/
def specPipeBad : Specification :=
  { entrypoints :=
      [([97], { trigger := .Pipe [120], args := [], environment := [] }),
       ([98], { trigger := .Pipe [120], args := [], environment := [] })] }

/-- A valid specification with one socket reader and two socket writers of
socket `s`. -/
def specSockGood : Specification :=
  { entrypoints :=
      [([97], { trigger := .FileSocket [115], args := [.Trigger], environment := [] }),
       ([98], { trigger := .Startup, args := [.FileSocket (.Tx [115])], environment := [] }),
       ([99], { trigger := .Startup, args := [.FileSocket (.Tx [115])], environment := [] })] }

/-- An invalid specification: socket `s` has a reader but no writer. -/
def specSockBad : Specification :=
  { entrypoints :=
      [([97], { trigger := .FileSocket [115], args := [], environment := [] })] }

/-- Arguments of the single entrypoint of `specTriggerTx`: the trigger
payload plus the write end of pipe `p`. -/
def specTriggerTxArgs : List Arg :=
  [.Trigger, .Pipe (.Tx [112])]

/-- A specification the validator accepts (pipe `p` has exactly one reader,
the trigger, and one writer, the `Tx` arg) whose triggered entrypoint
carries a `Pipe::Tx` argument. -/
def specTriggerTx : Specification :=
  { entrypoints :=
      [([97], { trigger := .Pipe [112], args := specTriggerTxArgs, environment := [] })] }

/-- A concrete ambient world for witnesses: file opens and TCP binds fail,
`dup` returns a fresh fd. -/
def ambientWorldTest : AmbientWorld :=
  { openFile := fun _ => .error .Json
    bindTcp := fun _ => .error .Json
    dup := fun f => .ok (f + 1) }

/-!
# Theorems
-/

/-! ## Reap-loop lemmas (claims C1 and C4) -/

theorem reapLoop_append_running (pre : List WaitEvent) (rest : List WaitEvent)
    (acc : Int) (h : reapRunning pre = true) :
    reapLoop acc (pre ++ rest) = reapLoop ((lastNonOkCode pre).getD acc) rest := by
  induction pre generalizing acc with
  | nil => simp [lastNonOkCode]
  | cons e pre ih =>
    cases e with
    | exited pid code =>
      have hpre : reapRunning pre = true := h
      have step : reapLoop acc ((WaitEvent.exited pid code :: pre) ++ rest)
          = reapLoop (if code ≠ 0 then code else acc) (pre ++ rest) := rfl
      rw [step, ih _ hpre]
      have hcons : lastNonOkCode (WaitEvent.exited pid code :: pre)
          = (lastNonOkCode pre).orElse
              (fun _ => if code ≠ 0 then some code else none) := rfl
      rw [hcons]
      cases hl : lastNonOkCode pre <;> by_cases hc : code = 0 <;>
        simp [Option.orElse, hc]
    | signaled pid sig =>
      have hpre : reapRunning pre = true := h
      have step : reapLoop acc ((WaitEvent.signaled pid sig :: pre) ++ rest)
          = reapLoop acc (pre ++ rest) := rfl
      have hcons : lastNonOkCode (WaitEvent.signaled pid sig :: pre)
          = lastNonOkCode pre := rfl
      rw [step, ih _ hpre, hcons]
    | echild => simp [reapRunning] at h
    | failed e => simp [reapRunning] at h

/-- C1 (counterexample): the reap loop's exit code is not the FIRST non-OK
child exit code. On the trace where child 1 exits with code 2 and then
child 2 exits with code 3 before `ECHILD`, the loop returns 3 (the last
non-OK code), while the first non-OK code seen is 2. -/
theorem reapLoop_not_first_nonok :
    reapLoop 0 [.exited 1 2, .exited 2 3, .echild] = some (.ok 3) ∧
    firstNonOkCode [.exited 1 2, .exited 2 3, .echild] = some 2 ∧
    (3 : Int) ≠ 2 := by decide

/-- C1 (amended): in non-daemon mode the reap loop, run over any trace of
reaped children followed by `ECHILD`, returns the LAST non-OK child exit
code seen (or 0 if all children exited cleanly or were signalled), and
`ECHILD` terminates the loop. -/
theorem reapLoop_returns_last_nonok (pre rest : List WaitEvent)
    (h : reapRunning pre = true) :
    reapLoop 0 (pre ++ .echild :: rest) = some (.ok ((lastNonOkCode pre).getD 0)) := by
  rw [reapLoop_append_running pre (.echild :: rest) 0 h]
  rfl

theorem reapLoop_returns_last_nonok_witness :
    reapRunning [.exited 1 2, .exited 2 3, .signaled 3 9] = true ∧
    reapLoop 0 ([.exited 1 2, .exited 2 3, .signaled 3 9] ++ .echild :: []) =
      some (.ok ((lastNonOkCode [.exited 1 2, .exited 2 3, .signaled 3 9]).getD 0)) :=
  ⟨by decide, reapLoop_returns_last_nonok [.exited 1 2, .exited 2 3, .signaled 3 9] []
    (by decide)⟩

/-- C4 (counterexample): when `waitid` fails with `EINTR`, the reap loop does
NOT ignore the error and retry: it stops immediately with
`Error::Nix("waitpid", EINTR)`, even though further children (here one that
would exit cleanly, then `ECHILD`) were still pending. Under the claim the
result would have been `Ok 0`. -/
theorem reapLoop_eintr_stops :
    reapLoop 0 [.failed .EINTR, .exited 1 0, .echild]
      = some (.error (.Nix "waitpid" .EINTR)) ∧
    reapLoop 0 [.failed .EINTR, .exited 1 0, .echild] ≠ some (.ok 0) := by decide

/-- C4 (amended): an `EINTR` failure of `waitid` in the main reap loop is
propagated as `Error::Nix("waitpid", EINTR)` and terminates `run` with an
error; the loop does not retry. -/
theorem reapLoop_eintr_errors (k : Int) (rest : List WaitEvent) :
    reapLoop k (.failed .EINTR :: rest) = some (.error (.Nix "waitpid" .EINTR)) := rfl

/-! ## Validator lemmas (claims C2 and C3) -/

theorem except_bind_ok {ε α β : Type _} (a : α) (f : α → Except ε β) :
    (Bind.bind (Except.ok a) f : Except ε β) = f a := rfl

theorem except_bind_err {ε α β : Type _} (e : ε) (f : α → Except ε β) :
    (Bind.bind (Except.error e) f : Except ε β) = Except.error e := rfl

theorem insertAll_ok_mem {mkErr : RStr → Error} {seen l s : List RStr}
    (h : insertAll mkErr seen l = .ok s) :
    ∀ x, x ∈ s ↔ x ∈ seen ∨ x ∈ l := by
  induction l generalizing seen with
  | nil =>
    simp only [insertAll] at h
    cases h
    simp
  | cons a l ih =>
    by_cases ha : a ∈ seen
    · simp [insertAll, ha] at h
    · simp only [insertAll, if_neg ha] at h
      intro x
      rw [ih h x]
      simp only [List.mem_cons]
      tauto

theorem insertAll_ok_nodup {mkErr : RStr → Error} {seen l s : List RStr}
    (hseen : seen.Nodup) (h : insertAll mkErr seen l = .ok s) : s.Nodup := by
  induction l generalizing seen with
  | nil =>
    simp only [insertAll] at h
    cases h
    exact hseen
  | cons a l ih =>
    by_cases ha : a ∈ seen
    · simp [insertAll, ha] at h
    · simp only [insertAll, if_neg ha] at h
      exact ih (List.nodup_cons.mpr ⟨ha, hseen⟩) h

theorem insertAll_ok_source {mkErr : RStr → Error} {seen l s : List RStr}
    (h : insertAll mkErr seen l = .ok s) :
    l.Nodup ∧ ∀ x ∈ l, x ∉ seen := by
  induction l generalizing seen with
  | nil => simp
  | cons a l ih =>
    by_cases ha : a ∈ seen
    · simp [insertAll, ha] at h
    · simp only [insertAll, if_neg ha] at h
      obtain ⟨hnd, hdisj⟩ := ih h
      have hal : a ∉ l := fun hal => (hdisj a hal) (List.mem_cons_self a seen)
      refine ⟨List.nodup_cons.mpr ⟨hal, hnd⟩, ?_⟩
      intro x hx
      rcases List.mem_cons.mp hx with hx | hx
      · subst hx; exact ha
      · intro hxs
        exact hdisj x hx (List.mem_cons_of_mem a hxs)

theorem insertAll_ok_of {mkErr : RStr → Error} {seen l : List RStr}
    (hl : l.Nodup) (hdisj : ∀ x ∈ l, x ∉ seen) :
    ∃ s, insertAll mkErr seen l = .ok s := by
  induction l generalizing seen with
  | nil => exact ⟨seen, rfl⟩
  | cons a l ih =>
    have ha : a ∉ seen := hdisj a (List.mem_cons_self a l)
    simp only [insertAll, if_neg ha]
    obtain ⟨hal, hnd⟩ := List.nodup_cons.mp hl
    refine ih hnd ?_
    intro x hx
    simp only [List.mem_cons]
    rintro (rfl | hxs)
    · exact hal hx
    · exact hdisj x (List.mem_cons_of_mem a hx) hxs

theorem insertAll_error_shape {mkErr : RStr → Error} {seen l : List RStr} {e : Error}
    (h : insertAll mkErr seen l = .error e) : ∃ m, e = mkErr m := by
  induction l generalizing seen with
  | nil => simp [insertAll] at h
  | cons a l ih =>
    by_cases ha : a ∈ seen
    · simp only [insertAll, if_pos ha] at h
      cases h
      exact ⟨a, rfl⟩
    · simp only [insertAll, if_neg ha] at h
      exact ih h

theorem consumePipeReads_ok_sub {ws rs leftover : List RStr}
    (h : consumePipeReads ws rs = .ok leftover) :
    ∀ r ∈ rs, r ∈ ws := by
  induction rs generalizing ws with
  | nil => simp
  | cons r rs ih =>
    by_cases hr : r ∈ ws
    · simp only [consumePipeReads, if_pos hr] at h
      intro x hx
      rcases List.mem_cons.mp hx with hx | hx
      · subst hx; exact hr
      · exact List.erase_subset r ws (ih h x hx)
    · simp [consumePipeReads, hr] at h

theorem consumePipeReads_ok_leftover {ws rs leftover : List RStr}
    (hws : ws.Nodup) (h : consumePipeReads ws rs = .ok leftover) :
    ∀ x, x ∈ leftover ↔ x ∈ ws ∧ x ∉ rs := by
  induction rs generalizing ws with
  | nil =>
    simp only [consumePipeReads] at h
    cases h
    simp
  | cons r rs ih =>
    by_cases hr : r ∈ ws
    · simp only [consumePipeReads, if_pos hr] at h
      intro x
      rw [ih (hws.erase r) h x, hws.mem_erase_iff]
      simp only [List.mem_cons]
      constructor
      · rintro ⟨⟨hxr, hxw⟩, hxrs⟩
        exact ⟨hxw, fun hc => hc.elim hxr hxrs⟩
      · rintro ⟨hxw, hxc⟩
        exact ⟨⟨fun hc => hxc (Or.inl hc), hxw⟩, fun hc => hxc (Or.inr hc)⟩
    · simp [consumePipeReads, hr] at h

theorem consumePipeReads_ok_of {ws rs : List RStr}
    (hws : ws.Nodup) (hrs : rs.Nodup) (hsub : ∀ r ∈ rs, r ∈ ws) :
    ∃ leftover, consumePipeReads ws rs = .ok leftover := by
  induction rs generalizing ws with
  | nil => exact ⟨ws, rfl⟩
  | cons r rs ih =>
    have hr : r ∈ ws := hsub r (List.mem_cons_self r rs)
    simp only [consumePipeReads, if_pos hr]
    obtain ⟨hrrs, hnd⟩ := List.nodup_cons.mp hrs
    refine ih (hws.erase r) hnd ?_
    intro x hx
    rw [hws.mem_erase_iff]
    exact ⟨fun hc => hrrs (hc ▸ hx), hsub x (List.mem_cons_of_mem r hx)⟩

theorem consumePipeReads_error_shape {ws rs : List RStr} {e : Error}
    (h : consumePipeReads ws rs = .error e) : ∃ m, e = .BadPipe m := by
  induction rs generalizing ws with
  | nil => simp [consumePipeReads] at h
  | cons r rs ih =>
    by_cases hr : r ∈ ws
    · simp only [consumePipeReads, if_pos hr] at h
      exact ih h
    · simp only [consumePipeReads, if_neg hr] at h
      cases h
      exact ⟨r, rfl⟩

theorem checkSocketReads_ok_iff (ws rs : List RStr) :
    checkSocketReads ws rs = .ok () ↔ ∀ r ∈ rs, r ∈ ws := by
  induction rs with
  | nil => simp [checkSocketReads]
  | cons r rs ih =>
    by_cases hr : r ∈ ws
    · simp [checkSocketReads, hr, ih]
    · simp [checkSocketReads, hr]

theorem checkSocketReads_error_shape {ws rs : List RStr} {e : Error}
    (h : checkSocketReads ws rs = .error e) : ∃ m, e = .BadFileSocket m := by
  induction rs with
  | nil => simp [checkSocketReads] at h
  | cons r rs ih =>
    by_cases hr : r ∈ ws
    · simp only [checkSocketReads, if_pos hr] at h
      exact ih h
    · simp only [checkSocketReads, if_neg hr] at h
      cases h
      exact ⟨r, rfl⟩

theorem validatePipes_ok_iff (spec : Specification) :
    spec.validatePipes = .ok () ↔
      ((spec.pipes).1.Nodup ∧ (spec.pipes).2.Nodup ∧
        ∀ x, x ∈ (spec.pipes).1 ↔ x ∈ (spec.pipes).2) := by
  constructor
  · intro h
    cases h1 : insertAll Error.BadPipe [] (spec.pipes).1 with
    | error e => simp [Specification.validatePipes, h1, except_bind_err] at h
    | ok rs =>
    cases h2 : insertAll Error.BadPipe [] (spec.pipes).2 with
    | error e =>
      simp [Specification.validatePipes, h1, h2, except_bind_ok, except_bind_err] at h
    | ok ws =>
    cases h3 : consumePipeReads ws rs with
    | error e =>
      simp [Specification.validatePipes, h1, h2, h3, except_bind_ok, except_bind_err] at h
    | ok leftover =>
    have hleft : leftover = [] := by
      cases leftover with
      | nil => rfl
      | cons p l =>
        simp [Specification.validatePipes, h1, h2, h3, except_bind_ok] at h
    subst hleft
    have hrmem := insertAll_ok_mem h1
    have hwmem := insertAll_ok_mem h2
    have hrnd : rs.Nodup := insertAll_ok_nodup List.nodup_nil h1
    have hwnd : ws.Nodup := insertAll_ok_nodup List.nodup_nil h2
    have hsub := consumePipeReads_ok_sub h3
    have hlft := consumePipeReads_ok_leftover hwnd h3
    refine ⟨(insertAll_ok_source h1).1, (insertAll_ok_source h2).1, ?_⟩
    intro x
    constructor
    · intro hx
      have hxrs : x ∈ rs := (hrmem x).mpr (Or.inr hx)
      have hxws : x ∈ ws := hsub x hxrs
      exact ((hwmem x).mp hxws).resolve_left (by simp)
    · intro hx
      have hxws : x ∈ ws := (hwmem x).mpr (Or.inr hx)
      have hxrs : x ∈ rs := by
        by_contra hc
        exact (List.not_mem_nil x) (((hlft x).mpr ⟨hxws, hc⟩))
      exact ((hrmem x).mp hxrs).resolve_left (by simp)
  · rintro ⟨hrnd, hwnd, hiff⟩
    obtain ⟨rs, h1⟩ := @insertAll_ok_of Error.BadPipe [] _ hrnd (by simp)
    obtain ⟨ws, h2⟩ := @insertAll_ok_of Error.BadPipe [] _ hwnd (by simp)
    have hrmem := insertAll_ok_mem h1
    have hwmem := insertAll_ok_mem h2
    have hrsnd : rs.Nodup := insertAll_ok_nodup List.nodup_nil h1
    have hwsnd : ws.Nodup := insertAll_ok_nodup List.nodup_nil h2
    have hsub : ∀ r ∈ rs, r ∈ ws := by
      intro r hr
      have : r ∈ (spec.pipes).1 := ((hrmem r).mp hr).resolve_left (by simp)
      exact (hwmem r).mpr (Or.inr ((hiff r).mp this))
    obtain ⟨leftover, h3⟩ := consumePipeReads_ok_of hwsnd hrsnd hsub
    have hlft := consumePipeReads_ok_leftover hwsnd h3
    have hleft : leftover = [] := by
      rw [List.eq_nil_iff_forall_not_mem]
      intro x hx
      obtain ⟨hxws, hxrs⟩ := (hlft x).mp hx
      have : x ∈ (spec.pipes).2 := ((hwmem x).mp hxws).resolve_left (by simp)
      exact hxrs ((hrmem x).mpr (Or.inr ((hiff x).mpr this)))
    subst hleft
    simp [Specification.validatePipes, h1, h2, h3, except_bind_ok]

theorem validatePipes_error_shape {spec : Specification}
    (h : spec.validatePipes ≠ .ok ()) :
    ∃ m, spec.validatePipes = .error (.BadPipe m) := by
  cases h1 : insertAll Error.BadPipe [] (spec.pipes).1 with
  | error e =>
    obtain ⟨m, rfl⟩ := insertAll_error_shape h1
    exact ⟨m, by simp [Specification.validatePipes, h1, except_bind_err]⟩
  | ok rs =>
  cases h2 : insertAll Error.BadPipe [] (spec.pipes).2 with
  | error e =>
    obtain ⟨m, rfl⟩ := insertAll_error_shape h2
    exact ⟨m, by simp [Specification.validatePipes, h1, h2, except_bind_ok, except_bind_err]⟩
  | ok ws =>
  cases h3 : consumePipeReads ws rs with
  | error e =>
    obtain ⟨m, rfl⟩ := consumePipeReads_error_shape h3
    exact ⟨m, by simp [Specification.validatePipes, h1, h2, h3, except_bind_ok, except_bind_err]⟩
  | ok leftover =>
  cases leftover with
  | nil =>
    exact absurd (by simp [Specification.validatePipes, h1, h2, h3, except_bind_ok]) h
  | cons p l =>
    exact ⟨p, by simp [Specification.validatePipes, h1, h2, h3, except_bind_ok]⟩

theorem validateSockets_ok_iff (spec : Specification) :
    spec.validateSockets = .ok () ↔
      ((spec.sockets).1.Nodup ∧ (∀ r ∈ (spec.sockets).1, r ∈ (spec.sockets).2) ∧
        ∀ w ∈ (spec.sockets).2, w ∈ (spec.sockets).1) := by
  constructor
  · intro h
    cases h1 : insertAll Error.BadFileSocket [] (spec.sockets).1 with
    | error e => simp [Specification.validateSockets, h1, except_bind_err] at h
    | ok rs =>
    cases h3 : checkSocketReads ((spec.sockets).2.dedup) rs with
    | error e =>
      simp [Specification.validateSockets, h1, h3, except_bind_ok, except_bind_err] at h
    | ok u =>
    cases u
    have hfilter :
        ((spec.sockets).2.dedup.filter (fun w => !decide (w ∈ rs))) = [] := by
      by_contra hc
      cases hf : ((spec.sockets).2.dedup.filter (fun w => !decide (w ∈ rs))) with
      | nil => exact hc hf
      | cons s l =>
        simp [Specification.validateSockets, h1, h3, hf, except_bind_ok] at h
    have hrmem := insertAll_ok_mem h1
    have hsub := (checkSocketReads_ok_iff _ _).mp h3
    refine ⟨(insertAll_ok_source h1).1, ?_, ?_⟩
    · intro r hr
      have hrrs : r ∈ rs := (hrmem r).mpr (Or.inr hr)
      have : r ∈ (spec.sockets).2.dedup := hsub r hrrs
      exact List.mem_dedup.mp this
    · intro w hw
      have hwd : w ∈ (spec.sockets).2.dedup := List.mem_dedup.mpr hw
      have hnp := List.filter_eq_nil_iff.mp hfilter w hwd
      have hwrs : w ∈ rs := by simpa using hnp
      exact ((hrmem w).mp hwrs).resolve_left (by simp)
  · rintro ⟨hrnd, hrsub, hwsub⟩
    obtain ⟨rs, h1⟩ := @insertAll_ok_of Error.BadFileSocket [] _ hrnd (by simp)
    have hrmem := insertAll_ok_mem h1
    have h3 : checkSocketReads ((spec.sockets).2.dedup) rs = .ok () := by
      rw [checkSocketReads_ok_iff]
      intro r hr
      have : r ∈ (spec.sockets).1 := ((hrmem r).mp hr).resolve_left (by simp)
      exact List.mem_dedup.mpr (hrsub r this)
    have hfilter :
        ((spec.sockets).2.dedup.filter (fun w => !decide (w ∈ rs))) = [] := by
      rw [List.filter_eq_nil_iff]
      intro w hw
      have : w ∈ (spec.sockets).1 := hwsub w (List.mem_dedup.mp hw)
      simp [(hrmem w).mpr (Or.inr this)]
    simp [Specification.validateSockets, h1, h3, hfilter, except_bind_ok]

theorem validateSockets_error_shape {spec : Specification}
    (h : spec.validateSockets ≠ .ok ()) :
    ∃ m, spec.validateSockets = .error (.BadFileSocket m) := by
  cases h1 : insertAll Error.BadFileSocket [] (spec.sockets).1 with
  | error e =>
    obtain ⟨m, rfl⟩ := insertAll_error_shape h1
    exact ⟨m, by simp [Specification.validateSockets, h1, except_bind_err]⟩
  | ok rs =>
  cases h3 : checkSocketReads ((spec.sockets).2.dedup) rs with
  | error e =>
    obtain ⟨m, rfl⟩ := checkSocketReads_error_shape h3
    exact ⟨m, by simp [Specification.validateSockets, h1, h3, except_bind_ok, except_bind_err]⟩
  | ok u =>
  cases u
  cases hf : ((spec.sockets).2.dedup.filter (fun w => !decide (w ∈ rs))) with
  | nil =>
    exact absurd (by simp [Specification.validateSockets, h1, h3, hf, except_bind_ok]) h
  | cons s l =>
    exact ⟨s, by simp [Specification.validateSockets, h1, h3, hf, except_bind_ok]⟩

theorem validate_ok_parts {spec : Specification} (h : spec.validate = .ok ()) :
    spec.validatePipes = .ok () ∧ spec.validateSockets = .ok () := by
  cases h1 : spec.validatePipes with
  | error e => simp [Specification.validate, h1, except_bind_err] at h
  | ok u =>
  cases u
  cases h2 : spec.validateSockets with
  | error e => simp [Specification.validate, h1, h2, except_bind_ok, except_bind_err] at h
  | ok u =>
  cases u
  exact ⟨rfl, rfl⟩

theorem validate_error_of_pipes {spec : Specification} {e : Error}
    (h : spec.validatePipes = .error e) :
    spec.validate = .error e ∧ runSpawnPlan spec = .error e := by
  have hv : spec.validate = .error e := by
    simp [Specification.validate, h, except_bind_err]
  exact ⟨hv, by simp [runSpawnPlan, hv, except_bind_err]⟩

theorem countName_pos_iff (n : RStr) (l : List RStr) :
    0 < countName n l ↔ n ∈ l := by
  induction l with
  | nil => simp [countName]
  | cons x l ih =>
    by_cases hx : x = n
    · subst hx
      simp [countName]
    · simp [countName, hx, ih, Ne.symm hx]

theorem countName_eq_zero (n : RStr) (l : List RStr) :
    countName n l = 0 ↔ n ∉ l := by
  rw [← countName_pos_iff n l]
  omega

theorem nodup_iff_countName_le_one (l : List RStr) :
    l.Nodup ↔ ∀ n, countName n l ≤ 1 := by
  induction l with
  | nil => simp [countName]
  | cons x l ih =>
    rw [List.nodup_cons, ih]
    constructor
    · rintro ⟨hx, hl⟩ n
      by_cases hn : x = n
      · subst hn
        have : countName x l = 0 := (countName_eq_zero x l).mpr hx
        simp [countName, this]
      · simpa [countName, hn] using hl n
    · intro h
      constructor
      · intro hx
        have := h x
        have hpos : 0 < countName x l := (countName_pos_iff x l).mpr hx
        simp [countName] at this
        omega
      · intro n
        have := h n
        simp [countName] at this
        by_cases hn : x = n <;> simp [hn] at this <;> omega

theorem pipe_sets_iff_counts (read write : List RStr) :
    (read.Nodup ∧ write.Nodup ∧ ∀ x, x ∈ read ↔ x ∈ write) ↔
      ∀ n ∈ read ++ write, countName n read = 1 ∧ countName n write = 1 := by
  constructor
  · rintro ⟨hr, hw, hiff⟩ n hn
    have hmem : n ∈ read ∧ n ∈ write := by
      rcases List.mem_append.mp hn with h | h
      · exact ⟨h, (hiff n).mp h⟩
      · exact ⟨(hiff n).mpr h, h⟩
    constructor
    · exact Nat.le_antisymm ((nodup_iff_countName_le_one read).mp hr n)
        ((countName_pos_iff n read).mpr hmem.1)
    · exact Nat.le_antisymm ((nodup_iff_countName_le_one write).mp hw n)
        ((countName_pos_iff n write).mpr hmem.2)
  · intro h
    refine ⟨?_, ?_, ?_⟩
    · rw [nodup_iff_countName_le_one]
      intro a
      by_cases ha : a ∈ read
      · exact le_of_eq (h a (List.mem_append.mpr (Or.inl ha))).1
      · simp [(countName_eq_zero a read).mpr ha]
    · rw [nodup_iff_countName_le_one]
      intro a
      by_cases ha : a ∈ write
      · exact le_of_eq (h a (List.mem_append.mpr (Or.inr ha))).2
      · simp [(countName_eq_zero a write).mpr ha]
    · intro x
      constructor
      · intro hx
        have := (h x (List.mem_append.mpr (Or.inl hx))).2
        exact (countName_pos_iff x write).mp (by omega)
      · intro hx
        have := (h x (List.mem_append.mpr (Or.inr hx))).1
        exact (countName_pos_iff x read).mp (by omega)

theorem socket_sets_iff_counts (read write : List RStr) :
    (read.Nodup ∧ (∀ r ∈ read, r ∈ write) ∧ ∀ w ∈ write, w ∈ read) ↔
      ∀ n ∈ read ++ write, countName n read = 1 ∧ 1 ≤ countName n write := by
  constructor
  · rintro ⟨hr, hrw, hwr⟩ n hn
    have hmem : n ∈ read ∧ n ∈ write := by
      rcases List.mem_append.mp hn with h | h
      · exact ⟨h, hrw n h⟩
      · exact ⟨hwr n h, h⟩
    exact ⟨Nat.le_antisymm ((nodup_iff_countName_le_one read).mp hr n)
        ((countName_pos_iff n read).mpr hmem.1),
      (countName_pos_iff n write).mpr hmem.2⟩
  · intro h
    refine ⟨?_, ?_, ?_⟩
    · rw [nodup_iff_countName_le_one]
      intro a
      by_cases ha : a ∈ read
      · exact le_of_eq (h a (List.mem_append.mpr (Or.inl ha))).1
      · simp [(countName_eq_zero a read).mpr ha]
    · intro r hr
      exact (countName_pos_iff r write).mp (h r (List.mem_append.mpr (Or.inl hr))).2
    · intro w hw
      have := (h w (List.mem_append.mpr (Or.inr hw))).1
      exact (countName_pos_iff w read).mp (by omega)

/-- C2: `validate` succeeds only if every pipe name has exactly one Rx
reference (pipe triggers plus `Pipe::Rx` args) and exactly one Tx reference
(`Pipe::Tx` args); a specification violating this is rejected with
`Error::BadPipe` carrying a pipe name, before anything is spawned by `run`
(`runSpawnPlan` errors without producing a spawn list). -/
theorem validate_pipe_topology (spec : Specification) :
    (spec.validate = .ok () →
      ∀ n ∈ pipeNames spec, pipeRxCount spec n = 1 ∧ pipeTxCount spec n = 1) ∧
    ((¬ ∀ n ∈ pipeNames spec, pipeRxCount spec n = 1 ∧ pipeTxCount spec n = 1) →
      ∃ m, spec.validate = .error (.BadPipe m) ∧
        runSpawnPlan spec = .error (.BadPipe m)) := by
  constructor
  · intro hok n hn
    have hp : spec.validatePipes = .ok () := (validate_ok_parts hok).1
    have hcond := (validatePipes_ok_iff spec).mp hp
    exact (pipe_sets_iff_counts (spec.pipes).1 (spec.pipes).2).mp hcond n hn
  · intro hviol
    have hnok : spec.validatePipes ≠ .ok () := by
      intro hok
      exact hviol ((pipe_sets_iff_counts (spec.pipes).1 (spec.pipes).2).mp
        ((validatePipes_ok_iff spec).mp hok))
    obtain ⟨m, hm⟩ := validatePipes_error_shape hnok
    obtain ⟨hv, hr⟩ := validate_error_of_pipes hm
    exact ⟨m, hv, hr⟩

theorem validate_pipe_topology_witness :
    (∀ n ∈ pipeNames specPipeGood,
      pipeRxCount specPipeGood n = 1 ∧ pipeTxCount specPipeGood n = 1) ∧
    (∃ m, specPipeBad.validate = .error (.BadPipe m) ∧
      runSpawnPlan specPipeBad = .error (.BadPipe m)) :=
  ⟨(validate_pipe_topology specPipeGood).1 (by decide),
   (validate_pipe_topology specPipeBad).2 (by decide)⟩

/-- C3: the socket-topology block of `validate` accepts exactly when every
socket name has exactly one Rx reference (socket triggers plus
`FileSocket::Rx` args) and at least one Tx reference (repeats allowed); any
violation yields `Error::BadFileSocket` carrying a socket name; and a
specification accepted by the full `validate` satisfies the same
socket-topology condition. -/
theorem validate_socket_topology (spec : Specification) :
    (spec.validateSockets = .ok () ↔
      ∀ n ∈ socketNames spec, socketRxCount spec n = 1 ∧ 1 ≤ socketTxCount spec n) ∧
    (spec.validateSockets ≠ .ok () →
      ∃ m, spec.validateSockets = .error (.BadFileSocket m)) ∧
    (spec.validate = .ok () →
      ∀ n ∈ socketNames spec, socketRxCount spec n = 1 ∧ 1 ≤ socketTxCount spec n) := by
  have hiff : spec.validateSockets = .ok () ↔
      ∀ n ∈ socketNames spec, socketRxCount spec n = 1 ∧ 1 ≤ socketTxCount spec n := by
    rw [validateSockets_ok_iff]
    exact socket_sets_iff_counts (spec.sockets).1 (spec.sockets).2
  refine ⟨hiff, fun h => validateSockets_error_shape h, fun hok => ?_⟩
  exact hiff.mp (validate_ok_parts hok).2

theorem validate_socket_topology_witness :
    specSockGood.validateSockets = .ok () ∧
    (∃ m, specSockBad.validateSockets = .error (.BadFileSocket m)) :=
  ⟨(validate_socket_topology specSockGood).1.mpr (by decide),
   (validate_socket_topology specSockBad).2.1 (by decide)⟩

/-! ## IPC endpoint move semantics (claim C7) -/

/-- C7: for every `PipePair`, `take_read` and `take_write` each succeed at
most once — a second call returns `BadPipe` with the pipe's name; for every
`SocketPair`, `take_read` succeeds at most once (a second call returns
`BadFileSocket` with the socket's name), while `write` succeeds on every
call with a successful `dup`, duplicating the shared write end and leaving
the pair untouched. -/
theorem pair_endpoint_take_once (p : PipePair) (s : SocketPair)
    (f g h d : Fd) (p₂ p₃ : PipePair) (s₂ : SocketPair) :
    (p.take_read = .ok (f, p₂) → p₂.take_read = .error (.BadPipe p.name)) ∧
    (p.take_write = .ok (g, p₃) → p₃.take_write = .error (.BadPipe p.name)) ∧
    (s.take_read = .ok (h, s₂) → s₂.take_read = .error (.BadFileSocket s.name)) ∧
    s.write (.ok d) = .ok d := by
  refine ⟨?_, ?_, ?_, rfl⟩
  · intro hr
    cases hp : p.read with
    | none => simp [PipePair.take_read, hp] at hr
    | some x =>
      simp only [PipePair.take_read, hp] at hr
      cases hr
      rfl
  · intro hw
    cases hp : p.write with
    | none => simp [PipePair.take_write, hp] at hw
    | some x =>
      simp only [PipePair.take_write, hp] at hw
      cases hw
      rfl
  · intro hr
    cases hs : s.read with
    | none => simp [SocketPair.take_read, hs] at hr
    | some x =>
      simp only [SocketPair.take_read, hs] at hr
      cases hr
      rfl

theorem pair_endpoint_take_once_witness :
    (PipePair.mk [112] none (some 4)).take_read = .error (.BadPipe [112]) ∧
    (PipePair.mk [112] (some 3) none).take_write = .error (.BadPipe [112]) ∧
    (SocketPair.mk [115] none 7).take_read = .error (.BadFileSocket [115]) ∧
    (SocketPair.new [115] 6 7).write (.ok 9) = .ok 9 := by
  have t := pair_endpoint_take_once (PipePair.new [112] 3 4) (SocketPair.new [115] 6 7)
    3 4 6 9 (PipePair.mk [112] none (some 4)) (PipePair.mk [112] (some 3) none)
    (SocketPair.mk [115] none 7)
  exact ⟨t.1 (by decide), t.2.1 (by decide), t.2.2.1 (by decide), t.2.2.2⟩

/-! ## Trigger payload argument lemmas (claim C8) -/

theorem decimalBytes_no_nul (n : Nat) : 0 ∉ decimalBytes n := by
  unfold decimalBytes
  by_cases h : n = 0
  · simp [h]
  · simp only [h, if_false]
    intro hmem
    rw [List.mem_reverse] at hmem
    obtain ⟨d, _, hd⟩ := List.mem_map.mp hmem
    omega

theorem cstringFdArgs_eq (fds : List Fd) :
    cstringFdArgs fds = some (fds.map decimalBytes) := by
  induction fds with
  | nil => rfl
  | cons f fds ih =>
    have hc : cstringNew (decimalBytes f) = some (decimalBytes f) := by
      simp [cstringNew, decimalBytes_no_nul f]
    simp [cstringFdArgs, hc, ih]

/-- C8 (counterexample): the pipe-trigger child's argument preparation does
NOT succeed for every byte payload: the one-byte payload `[0]` is valid
UTF-8, yet `CString::new` fails on the interior NUL and the source `unwrap`
panics; the invalid-UTF-8 payload `[255]` already panics at
`std::str::from_utf8(...).unwrap()`. -/
theorem pipe_trigger_args_panic :
    validUTF8 [0] = true ∧
    pipeTriggerArgPrep [0] = none ∧
    pipeTriggerArgPrep [0] ≠ some [[0]] ∧
    pipeTriggerArgPrep [255] = none := by decide

/-- C8 (amended): for every byte payload that is valid UTF-8 and free of NUL
bytes, the pipe-trigger child's `Trigger` argument preparation succeeds and
yields the payload as the single string argument; for a `FileSocket` trigger
it yields one decimal fd-number argument per received descriptor; and a
`Startup` trigger (`TriggerData::None`) yields no arguments. -/
theorem trigger_args_spec (payload : List Nat) (fds : List Fd) :
    (validUTF8 payload = true → 0 ∉ payload →
      pipeTriggerArgPrep payload = some [payload]) ∧
    TriggerData.args (.FileSocket fds) = some (fds.map decimalBytes) ∧
    TriggerData.args .None = some [] := by
  refine ⟨?_, ?_, rfl⟩
  · intro hv hn
    simp [pipeTriggerArgPrep, hv, TriggerData.args, cstringNew, hn]
  · exact cstringFdArgs_eq fds

theorem trigger_args_spec_witness :
    validUTF8 [104, 105] = true ∧ 0 ∉ [104, 105] ∧
    pipeTriggerArgPrep [104, 105] = some [[104, 105]] :=
  ⟨by decide, by decide, (trigger_args_spec [104, 105] [5, 17]).1 (by decide) (by decide)⟩

/-! ## Trigger-worker loop lemmas (claim C6) -/

theorem pipe_trigger_skips_spawned (spawnP : List Nat → Except Error Unit)
    (pre : List (List Nat)) (tail : List PipeRead)
    (hne : ∀ b ∈ pre, b ≠ []) (hok : ∀ b ∈ pre, spawnP b = .ok ()) :
    pipe_trigger spawnP (pre.map PipeRead.data ++ tail) = pipe_trigger spawnP tail := by
  induction pre with
  | nil => rfl
  | cons b pre ih =>
    have hb : b ≠ [] := hne b (List.mem_cons_self b pre)
    have hlen : ¬ b.length = 0 := fun hl => hb (List.length_eq_zero.mp hl)
    have hsp : spawnP b = .ok () := hok b (List.mem_cons_self b pre)
    have step : pipe_trigger spawnP ((b :: pre).map PipeRead.data ++ tail)
        = pipe_trigger spawnP (PipeRead.data b :: (pre.map PipeRead.data ++ tail)) := rfl
    rw [step]
    simp only [pipe_trigger, if_neg hlen, hsp]
    exact ih (fun x hx => hne x (List.mem_cons_of_mem b hx))
      (fun x hx => hok x (List.mem_cons_of_mem b hx))

theorem spawnEach_ok (spawnS : List Fd → Except Error Unit)
    (cs : List (List Fd)) (h : ∀ c ∈ cs, spawnS c = .ok ()) :
    spawnEach spawnS cs = .ok () := by
  induction cs with
  | nil => rfl
  | cons c cs ih =>
    have hc : spawnS c = .ok () := h c (List.mem_cons_self c cs)
    simp only [spawnEach, hc]
    exact ih (fun x hx => h x (List.mem_cons_of_mem c hx))

theorem file_socket_trigger_skips_spawned (spawnS : List Fd → Except Error Unit)
    (msgs : List (List (List Fd))) (tail : List SockRecv)
    (h : ∀ cs ∈ msgs, ∀ c ∈ cs, spawnS c = .ok ()) :
    file_socket_trigger spawnS (msgs.map SockRecv.msg ++ tail)
      = file_socket_trigger spawnS tail := by
  induction msgs with
  | nil => rfl
  | cons cs msgs ih =>
    have hcs : spawnEach spawnS cs = .ok () :=
      spawnEach_ok spawnS cs (h cs (List.mem_cons_self cs msgs))
    have step : file_socket_trigger spawnS ((cs :: msgs).map SockRecv.msg ++ tail)
        = match spawnEach spawnS cs with
          | .ok _ => file_socket_trigger spawnS (msgs.map SockRecv.msg ++ tail)
          | .error e => some (.error e) := rfl
    rw [step, hcs]
    exact ih (fun x hx => h x (List.mem_cons_of_mem cs hx))

/-- C6: a pipe-trigger worker's loop, after any number of successfully
handled non-empty payloads, terminates cleanly with `Ok(())` — and the
supervisor closure with status `exitcode::OK = 0` — both on a zero-byte read
(EOF) and on a read failing with `EINTR`; symmetrically, a
file-socket-trigger worker's loop, after any number of successfully handled
messages, terminates cleanly with status OK when `recvmsg` fails with
`EINTR`. -/
theorem trigger_loops_terminate_cleanly
    (spawnP : List Nat → Except Error Unit) (spawnS : List Fd → Except Error Unit)
    (pre : List (List Nat)) (msgs : List (List (List Fd)))
    (restP restP2 : List PipeRead) (restS : List SockRecv)
    (hne : ∀ b ∈ pre, b ≠ []) (hok : ∀ b ∈ pre, spawnP b = .ok ())
    (hsok : ∀ cs ∈ msgs, ∀ c ∈ cs, spawnS c = .ok ()) :
    pipe_trigger spawnP (pre.map PipeRead.data ++ .data [] :: restP) = some (.ok ()) ∧
    pipeTriggerStatus spawnP (pre.map PipeRead.data ++ .data [] :: restP) = some 0 ∧
    pipe_trigger spawnP (pre.map PipeRead.data ++ .interrupted :: restP2) = some (.ok ()) ∧
    pipeTriggerStatus spawnP (pre.map PipeRead.data ++ .interrupted :: restP2) = some 0 ∧
    file_socket_trigger spawnS (msgs.map SockRecv.msg ++ .interrupted :: restS)
      = some (.ok ()) ∧
    fileSocketTriggerStatus spawnS (msgs.map SockRecv.msg ++ .interrupted :: restS)
      = some 0 := by
  have hp1 := pipe_trigger_skips_spawned spawnP pre (.data [] :: restP) hne hok
  have hp2 := pipe_trigger_skips_spawned spawnP pre (.interrupted :: restP2) hne hok
  have hs1 := file_socket_trigger_skips_spawned spawnS msgs (.interrupted :: restS) hsok
  refine ⟨?_, ?_, ?_, ?_, ?_, ?_⟩
  · rw [hp1]; rfl
  · rw [pipeTriggerStatus, hp1]; rfl
  · rw [hp2]; rfl
  · rw [pipeTriggerStatus, hp2]; rfl
  · rw [hs1]; rfl
  · rw [fileSocketTriggerStatus, hs1]; rfl

theorem trigger_loops_terminate_cleanly_witness :
    pipe_trigger (fun _ => .ok ()) ([[104]].map PipeRead.data ++ .data [] :: [])
      = some (.ok ()) ∧
    fileSocketTriggerStatus (fun _ => .ok ())
      ([[[8, 9]]].map SockRecv.msg ++ .interrupted :: []) = some 0 := by
  have t := trigger_loops_terminate_cleanly (fun _ => .ok ()) (fun _ => .ok ())
    [[104]] [[[8, 9]]] [] [] [] (by decide) (fun _ _ => rfl) (fun _ _ _ _ => rfl)
  exact ⟨t.1, t.2.2.2.2.2⟩

/-! ## Ambient preparation of channel arguments (claim C10) -/

theorem bindPanic_ok {α β : Type _} (v : α)
    (f : α → Option (Except Error β)) :
    bindPanic (some (.ok v)) f = f v := rfl

theorem bindPanic_err {α β : Type _} (e : Error)
    (f : α → Option (Except Error β)) :
    bindPanic (some (.error e)) f = some (.error e) := rfl

theorem bindPanic_panic {α β : Type _} (f : α → Option (Except Error β)) :
    bindPanic (none : Option (Except Error α)) f = none := rfl

theorem prepare_ambient_cons (w : AmbientWorld)
    (sockets : List (RStr × SocketPair)) (builder : List Fd)
    (a : Arg) (rest : List Arg) :
    PreparedArgs.prepare_ambient w sockets builder (a :: rest)
      = bindPanic (PreparedArg.prepare_ambient w sockets builder a) (fun pb =>
          bindPanic (PreparedArgs.prepare_ambient w sockets pb.2 rest) fun qb =>
            some (.ok (pb.1 :: qb.1, qb.2))) := rfl

theorem prepare_ambient_append (w : AmbientWorld)
    (sockets : List (RStr × SocketPair)) (builder : List Fd)
    (pre suffix : List Arg) (ps : List PreparedArg) (b2 : List Fd)
    (h : PreparedArgs.prepare_ambient w sockets builder pre = some (.ok (ps, b2))) :
    PreparedArgs.prepare_ambient w sockets builder (pre ++ suffix)
      = bindPanic (PreparedArgs.prepare_ambient w sockets b2 suffix) (fun qb =>
          some (.ok (ps ++ qb.1, qb.2))) := by
  induction pre generalizing builder ps with
  | nil =>
    simp only [PreparedArgs.prepare_ambient] at h
    cases h
    simp only [List.nil_append]
    cases hs : PreparedArgs.prepare_ambient w sockets b2 suffix with
    | none => rfl
    | some r =>
      cases r with
      | error e => rfl
      | ok q => simp [bindPanic]
  | cons a pre ih =>
    rw [prepare_ambient_cons] at h
    rw [List.cons_append, prepare_ambient_cons]
    cases ha : PreparedArg.prepare_ambient w sockets builder a with
    | none => simp [ha, bindPanic_panic] at h
    | some r =>
      cases r with
      | error e => simp [ha, bindPanic_err] at h
      | ok pb =>
        obtain ⟨p, builder2⟩ := pb
        simp only [ha, bindPanic_ok] at h ⊢
        cases hrest : PreparedArgs.prepare_ambient w sockets builder2 pre with
        | none => simp [hrest, bindPanic_panic] at h
        | some r2 =>
          cases r2 with
          | error e => simp [hrest, bindPanic_err] at h
          | ok qb =>
            obtain ⟨ps2, b3⟩ := qb
            simp only [hrest, bindPanic_ok, Option.some.injEq, Except.ok.injEq,
              Prod.mk.injEq] at h
            obtain ⟨hps, hb⟩ := h
            subst hb
            rw [ih builder2 ps2 hrest]
            cases hs : PreparedArgs.prepare_ambient w sockets b3 suffix with
            | none => rfl
            | some r3 =>
              cases r3 with
              | error e => rfl
              | ok q =>
                obtain ⟨qs, b4⟩ := q
                simp [bindPanic, ← hps]

/-- C10: if a pipe- or file-socket-triggered entrypoint's argument list
contains an `Arg::Pipe` argument (Rx or Tx) or an `Arg::FileSocket` Rx
argument, the trigger worker's per-arrival ambient preparation
(`PreparedArgs::prepare_ambient`) returns `Error::BadPipe` (resp.
`Error::BadFileSocket`) with the channel's name instead of spawning — here
stated for the first offending argument, all arguments before it preparing
successfully — even though the validator accepts such a specification:
`specTriggerTx` (a `Pipe("p")`-triggered entrypoint with a `Pipe::Tx("p")`
arg) passes `validate` yet its ambient preparation fails with
`BadPipe("p")`. -/
theorem prepare_ambient_rejects_channel_args :
    (∀ (w : AmbientWorld) (sockets : List (RStr × SocketPair)) (builder : List Fd)
      (pre : List Arg) (off : Arg) (rest : List Arg) (ps : List PreparedArg) (b2 : List Fd),
      offendingArg off = true →
      PreparedArgs.prepare_ambient w sockets builder pre = some (.ok (ps, b2)) →
      ∃ e, PreparedArgs.prepare_ambient w sockets builder (pre ++ off :: rest)
          = some (.error e) ∧ offendingErr off = some e) ∧
    (specTriggerTx.validate = .ok () ∧
      PreparedArgs.prepare_ambient ambientWorldTest [] [] specTriggerTxArgs
        = some (.error (.BadPipe [112]))) := by
  constructor
  · intro w sockets builder pre off rest ps b2 hoff hpre
    have happ := prepare_ambient_append w sockets builder pre (off :: rest) ps b2 hpre
    cases off with
    | Pipe p =>
      refine ⟨.BadPipe p.get_name, ?_, rfl⟩
      rw [happ]
      rfl
    | FileSocket fs =>
      cases fs with
      | Rx s =>
        refine ⟨.BadFileSocket s, ?_, rfl⟩
        rw [happ]
        rfl
      | Tx s => simp [offendingArg] at hoff
    | BinaryName => simp [offendingArg] at hoff
    | Entrypoint => simp [offendingArg] at hoff
    | File path => simp [offendingArg] at hoff
    | Trigger => simp [offendingArg] at hoff
    | TcpListener addr => simp [offendingArg] at hoff
    | Rpc cmds => simp [offendingArg] at hoff
    | Trailing => simp [offendingArg] at hoff
  · exact ⟨by decide, by decide⟩

theorem prepare_ambient_rejects_channel_args_witness :
    ∃ e, PreparedArgs.prepare_ambient ambientWorldTest [] []
        ([Arg.BinaryName] ++ Arg.Pipe (.Rx [113]) :: [Arg.Trailing])
        = some (.error e) ∧ offendingErr (Arg.Pipe (.Rx [113])) = some e :=
  prepare_ambient_rejects_channel_args.1 ambientWorldTest [] [] [Arg.BinaryName]
    (Arg.Pipe (.Rx [113])) [Arg.Trailing] [PreparedArg.BinaryName] [] (by decide) (by decide)

/-! ## Descriptor-table lemmas (claim C5) -/

theorem lookupFd_cons (k : Nat) (e : FdEntry) (t : FdTable) (x : Nat) :
    lookupFd ((k, e) :: t) x = if k = x then some e else lookupFd t x := by
  by_cases hk : k = x
  · simp [lookupFd, List.find?_cons_of_pos, hk]
  · simp only [lookupFd, if_neg hk]
    rw [List.find?_cons_of_neg]
    simp [hk]

theorem lookupFd_filter (t : FdTable) (q : Nat → Bool) (x : Nat) :
    lookupFd (t.filter fun p => q p.1) x = if q x then lookupFd t x else none := by
  induction t with
  | nil => simp [lookupFd]
  | cons hd t ih =>
    obtain ⟨k, e⟩ := hd
    rw [List.filter_cons]
    by_cases hq : q k
    · by_cases hk : k = x
      · subst hk
        simp [hq, lookupFd_cons]
      · simp [hq, lookupFd_cons, hk, ih]
    · by_cases hk : k = x
      · subst hk
        simp [hq, ih]
      · simp [hq, lookupFd_cons, hk, ih]

theorem lookupFd_removeFd (t : FdTable) (fd x : Nat) :
    lookupFd (removeFd t fd) x = if x = fd then none else lookupFd t x := by
  rw [removeFd, lookupFd_filter t (fun k => !decide (k = fd)) x]
  by_cases hx : x = fd <;> simp [hx]

theorem lookupFd_setFd (t : FdTable) (fd : Nat) (e : FdEntry) (x : Nat) :
    lookupFd (setFd t fd e) x = if x = fd then some e else lookupFd t x := by
  rw [setFd, lookupFd_cons, lookupFd_removeFd]
  by_cases hx : x = fd
  · subst hx
    simp
  · rw [if_neg (fun h => hx h.symm), if_neg hx, if_neg hx]

theorem mem_fdKeys_iff (t : FdTable) (x : Nat) :
    x ∈ fdKeys t ↔ lookupFd t x ≠ none := by
  induction t with
  | nil => simp [fdKeys, lookupFd]
  | cons hd t ih =>
    obtain ⟨k, e⟩ := hd
    rw [fdKeys, List.map_cons, List.mem_cons, lookupFd_cons]
    by_cases hk : k = x
    · simp [hk]
    · simp only [if_neg hk]
      rw [← fdKeys, ih]
      constructor
      · rintro (h | h)
        · exact absurd h.symm hk
        · exact h
      · exact Or.inr

theorem le_foldr_max (keys : List Nat) : ∀ k ∈ keys, k ≤ keys.foldr max 0 := by
  induction keys with
  | nil => simp
  | cons a keys ih =>
    intro k hk
    rcases List.mem_cons.mp hk with h | h
    · subst h
      exact le_max_left _ _
    · exact le_trans (ih k h) (le_max_right _ _)

theorem leastFreeAux_not_mem (keys : List Nat) (fuel n : Nat)
    (h : keys.foldr max 0 < n + fuel) :
    leastFreeAux keys fuel n ∉ keys := by
  induction fuel generalizing n with
  | zero =>
    simp only [leastFreeAux]
    intro hmem
    have := le_foldr_max keys n hmem
    omega
  | succ fuel ih =>
    simp only [leastFreeAux]
    by_cases hn : n ∈ keys
    · simp only [hn, if_true]
      exact ih (n + 1) (by omega)
    · simpa [hn] using hn

theorem leastFree_not_mem (keys : List Nat) : leastFree keys ∉ keys :=
  leastFreeAux_not_mem keys (keys.foldr max 0 + 1) 0 (by omega)

theorem lookupFd_closefrom3 (keep : List Nat) (t : FdTable) (x : Nat) :
    lookupFd (closefrom3 keep t) x
      = if x < 3 ∨ x ∈ keep then lookupFd t x else none := by
  rw [closefrom3, lookupFd_filter t (fun k => decide (k < 3) || decide (k ∈ keep)) x]
  by_cases hx : x < 3 ∨ x ∈ keep
  · rcases hx with h | h <;> simp [h]
  · push_neg at hx
    simp [hx.1, hx.2]

theorem voidStdFds_props (keep : List Nat) (stds : List Nat) :
    ∀ (t : FdTable) (nf : Option Nat),
    stds.Nodup →
    (∀ s ∈ stds, lookupFd t s ≠ none) →
    (∀ f, nf = some f →
      lookupFd t f = some ⟨.devnull, true⟩ ∧ ∀ s ∈ stds, f ≠ s) →
    ∃ t2 nf2, voidStdFds keep t stds nf = (t2, nf2) ∧
      (∀ f, nf = some f → nf2 = some f) ∧
      (∀ f, nf2 = some f → nf = some f ∨ (lookupFd t f = none ∧ nf = none)) ∧
      (∀ x, x ∉ stds → (∀ f, nf2 = some f → x ≠ f) →
        lookupFd t2 x = lookupFd t x) ∧
      (∀ s ∈ stds, s ∉ keep → lookupFd t2 s = some ⟨.devnull, false⟩) ∧
      (∀ s ∈ stds, s ∈ keep → lookupFd t2 s = lookupFd t s) := by
  induction stds with
  | nil =>
    intro t nf _ _ _
    exact ⟨t, nf, rfl, fun _ hf => hf, fun _ hf => Or.inl hf,
      fun _ _ _ => rfl, by simp, by simp⟩
  | cons s rest ih =>
    intro t nf hnodup hopen hnf
    obtain ⟨hsrest, hnodup2⟩ := List.nodup_cons.mp hnodup
    by_cases hs : s ∈ keep
    · have heval : voidStdFds keep t (s :: rest) nf = voidStdFds keep t rest nf := by
        cases nf <;> simp [voidStdFds, hs]
      obtain ⟨t2, nf2, heq, b1, b2, b3, b4, b5⟩ :=
        ih t nf hnodup2 (fun x hx => hopen x (List.mem_cons_of_mem s hx))
          (fun f hf => ⟨(hnf f hf).1,
            fun x hx => (hnf f hf).2 x (List.mem_cons_of_mem s hx)⟩)
      refine ⟨t2, nf2, heval ▸ heq, b1, b2, ?_, ?_, ?_⟩
      · intro x hx hguard
        exact b3 x (fun hc => hx (List.mem_cons_of_mem s hc)) hguard
      · intro x hx hxk
        rcases List.mem_cons.mp hx with rfl | hx2
        · exact absurd hs hxk
        · exact b4 x hx2 hxk
      · intro x hx hxk
        rcases List.mem_cons.mp hx with rfl | hx2
        · refine b3 x hsrest ?_
          intro f hf
          rcases b2 f hf with hfn | ⟨hfe, _⟩
          · exact fun hc => ((hnf f hfn).2 x (List.mem_cons_self x rest)) hc.symm
          · intro hc
            exact (hopen x (List.mem_cons_self x rest)) (hc ▸ hfe)
        · exact b5 x hx2 hxk
    · cases nf with
      | some f =>
        obtain ⟨hf_entry, hf_ne⟩ := hnf f rfl
        have hfs : f ≠ s := hf_ne s (List.mem_cons_self s rest)
        have hdup : dup2Model t f s = setFd t s ⟨.devnull, false⟩ := by
          rw [dup2Model, if_neg hfs, hf_entry]
        have heval : voidStdFds keep t (s :: rest) (some f)
            = voidStdFds keep (setFd t s ⟨.devnull, false⟩) rest (some f) := by
          simp [voidStdFds, hs, hdup]
        obtain ⟨t2, nf2, heq, b1, b2, b3, b4, b5⟩ :=
          ih (setFd t s ⟨.devnull, false⟩) (some f) hnodup2
            (fun x hx => by
              rw [lookupFd_setFd]
              by_cases hxs : x = s
              · simp [hxs]
              · simp only [if_neg hxs]
                exact hopen x (List.mem_cons_of_mem s hx))
            (fun g hg => by
              injection hg with hgf
              subst hgf
              refine ⟨?_, fun x hx => hf_ne x (List.mem_cons_of_mem s hx)⟩
              rw [lookupFd_setFd, if_neg hfs]
              exact hf_entry)
        have hb1 : nf2 = some f := b1 f rfl
        refine ⟨t2, nf2, heval ▸ heq, fun g hg => hg ▸ hb1, ?_, ?_, ?_, ?_⟩
        · intro g hg
          rcases b2 g hg with h | ⟨_, hcontra⟩
          · exact Or.inl h
          · exact absurd hcontra (by simp)
        · intro x hx hguard
          have hxs : x ≠ s := fun hc => hx (hc ▸ List.mem_cons_self s rest)
          rw [b3 x (fun hc => hx (List.mem_cons_of_mem s hc)) hguard,
            lookupFd_setFd, if_neg hxs]
        · intro x hx hxk
          rcases List.mem_cons.mp hx with rfl | hx2
          · have hstep : lookupFd t2 x = lookupFd (setFd t x ⟨.devnull, false⟩) x := by
              refine b3 x hsrest ?_
              intro g hg
              rw [hb1] at hg
              injection hg with hgf
              subst hgf
              exact fun hc => hfs hc.symm
            rw [hstep, lookupFd_setFd, if_pos rfl]
          · exact b4 x hx2 hxk
        · intro x hx hxk
          rcases List.mem_cons.mp hx with rfl | hx2
          · exact absurd hxk hs
          · rw [b5 x hx2 hxk, lookupFd_setFd,
              if_neg (fun hc : x = s => hsrest (hc ▸ hx2))]
      | none =>
        have hf_not : lookupFd t (leastFree (fdKeys t)) = none := by
          by_contra hc
          exact leastFree_not_mem (fdKeys t) ((mem_fdKeys_iff t _).mpr hc)
        have heval : voidStdFds keep t (s :: rest) none
            = voidStdFds keep
                (dup2Model (setFd t (leastFree (fdKeys t)) ⟨.devnull, true⟩)
                  (leastFree (fdKeys t)) s)
                rest (some (leastFree (fdKeys t))) := by
          simp [voidStdFds, hs]
        generalize hF : leastFree (fdKeys t) = F at hf_not heval
        have hs_open : lookupFd t s ≠ none := hopen s (List.mem_cons_self s rest)
        have hfs : F ≠ s := fun hc => hs_open (hc ▸ hf_not)
        have hdup : dup2Model (setFd t F ⟨.devnull, true⟩) F s
            = setFd (setFd t F ⟨.devnull, true⟩) s ⟨.devnull, false⟩ := by
          rw [dup2Model, if_neg hfs, lookupFd_setFd, if_pos rfl]
        rw [hdup] at heval
        obtain ⟨t2, nf2, heq, b1, b2, b3, b4, b5⟩ :=
          ih (setFd (setFd t F ⟨.devnull, true⟩) s ⟨.devnull, false⟩) (some F) hnodup2
            (fun x hx => by
              rw [lookupFd_setFd]
              by_cases hxs : x = s
              · simp [hxs]
              · simp only [if_neg hxs]
                rw [lookupFd_setFd]
                by_cases hxF : x = F
                · simp [hxF]
                · simp only [if_neg hxF]
                  exact hopen x (List.mem_cons_of_mem s hx))
            (fun g hg => by
              injection hg with hgf
              subst hgf
              constructor
              · rw [lookupFd_setFd, if_neg hfs, lookupFd_setFd, if_pos rfl]
              · intro x hx hc
                exact (hopen x (List.mem_cons_of_mem s hx)) (hc ▸ hf_not))
        have hb1 : nf2 = some F := b1 F rfl
        refine ⟨t2, nf2, heval ▸ heq, fun g hg => Option.noConfusion hg, ?_, ?_, ?_, ?_⟩
        · intro g hg
          rw [hb1] at hg
          injection hg with hgf
          subst hgf
          exact Or.inr ⟨hf_not, rfl⟩
        · intro x hx hguard
          have hxs : x ≠ s := fun hc => hx (hc ▸ List.mem_cons_self s rest)
          have hxF : x ≠ F := hguard F hb1
          rw [b3 x (fun hc => hx (List.mem_cons_of_mem s hc))
              (fun g hg => by rw [hb1] at hg; injection hg with h2; subst h2; exact hxF),
            lookupFd_setFd, if_neg hxs, lookupFd_setFd, if_neg hxF]
        · intro x hx hxk
          rcases List.mem_cons.mp hx with rfl | hx2
          · have hstep : lookupFd t2 x
                = lookupFd (setFd (setFd t F ⟨.devnull, true⟩) x ⟨.devnull, false⟩) x := by
              refine b3 x hsrest ?_
              intro g hg
              rw [hb1] at hg
              injection hg with hgf
              subst hgf
              exact fun hc => hfs hc.symm
            rw [hstep, lookupFd_setFd, if_pos rfl]
          · exact b4 x hx2 hxk
        · intro x hx hxk
          rcases List.mem_cons.mp hx with rfl | hx2
          · exact absurd hxk hs
          · have hxF : x ≠ F := fun hc =>
              (hopen x (List.mem_cons_of_mem s hx2)) (hc ▸ hf_not)
            rw [b5 x hx2 hxk, lookupFd_setFd,
              if_neg (fun hc : x = s => hsrest (hc ▸ hx2)),
              lookupFd_setFd, if_neg hxF]

theorem clearCloexec_spec (keep : List Nat) :
    ∀ t : FdTable, (∀ k ∈ keep, lookupFd t k ≠ none) →
    ∃ t3, clearCloexec t keep = .ok t3 ∧
      (∀ x, x ∉ keep → lookupFd t3 x = lookupFd t x) ∧
      (∀ k ∈ keep, ∃ e, lookupFd t k = some e ∧
        lookupFd t3 k = some ⟨e.target, false⟩) := by
  induction keep with
  | nil =>
    intro t _
    exact ⟨t, rfl, fun _ _ => rfl, by simp⟩
  | cons fd rest ih =>
    intro t hopen
    cases he : lookupFd t fd with
    | none => exact absurd he (hopen fd (List.mem_cons_self fd rest))
    | some e =>
      have hstep : clearCloexec t (fd :: rest)
          = clearCloexec (setFd t fd ⟨e.target, false⟩) rest := by
        simp [clearCloexec, he]
      obtain ⟨t3, heq, b1, b2⟩ := ih (setFd t fd ⟨e.target, false⟩) (fun k hk => by
        rw [lookupFd_setFd]
        by_cases hkfd : k = fd
        · simp [hkfd]
        · simp only [if_neg hkfd]
          exact hopen k (List.mem_cons_of_mem fd hk))
      refine ⟨t3, hstep ▸ heq, ?_, ?_⟩
      · intro x hx
        have hxfd : x ≠ fd := fun hc => hx (hc ▸ List.mem_cons_self fd rest)
        rw [b1 x (fun hc => hx (List.mem_cons_of_mem fd hc)), lookupFd_setFd,
          if_neg hxfd]
      · intro k hk
        by_cases hkr : k ∈ rest
        · obtain ⟨e2, hk1, hk2⟩ := b2 k hkr
          rw [lookupFd_setFd] at hk1
          by_cases hkfd : k = fd
          · subst hkfd
            rw [if_pos rfl] at hk1
            injection hk1 with hk1
            exact ⟨e, he, by rw [hk2, ← hk1]⟩
          · rw [if_neg hkfd] at hk1
            exact ⟨e2, hk1, hk2⟩
        · rcases List.mem_cons.mp hk with rfl | hk2
          · rw [b1 k hkr, lookupFd_setFd, if_pos rfl]
            exact ⟨e, he, rfl⟩
          · exact absurd hk2 hkr

/-- C5: after the file-descriptor voiding step, run on a table where the
standard fds and every kept fd are open: every fd `≥ 3` not in `keep_fds` is
closed; every standard fd (0, 1, 2) not in `keep_fds` refers to the freshly
opened `/dev/null` with `FD_CLOEXEC` clear (it was overwritten by `dup2`,
never closed: it is open in the final table); and every fd in `keep_fds`
remains open with its original referent and its `FD_CLOEXEC` flag cleared. -/
theorem void_file_descriptors_spec (keep : List Nat) (t : FdTable)
    (h0 : lookupFd t 0 ≠ none) (h1 : lookupFd t 1 ≠ none) (h2 : lookupFd t 2 ≠ none)
    (hkeep : ∀ k ∈ keep, lookupFd t k ≠ none) :
    ∃ t2, void_file_descriptors keep t = .ok t2 ∧
      (∀ fd, 3 ≤ fd → fd ∉ keep → lookupFd t2 fd = none) ∧
      (∀ s, s < 3 → s ∉ keep →
        lookupFd t2 s = some ⟨.devnull, false⟩) ∧
      (∀ k ∈ keep, ∃ e, lookupFd t k = some e ∧
        lookupFd t2 k = some ⟨e.target, false⟩) := by
  have hcf : ∀ x, lookupFd (closefrom3 keep t) x
      = if x < 3 ∨ x ∈ keep then lookupFd t x else none :=
    fun x => lookupFd_closefrom3 keep t x
  have hmem3 : ∀ s : Nat, s ∈ [0, 1, 2] → s < 3 := by decide
  have hopen3 : ∀ s ∈ [0, 1, 2], lookupFd (closefrom3 keep t) s ≠ none := by
    intro s hsm
    rw [hcf s, if_pos (Or.inl (hmem3 s hsm))]
    rcases List.mem_cons.mp hsm with rfl | hsm2
    · exact h0
    rcases List.mem_cons.mp hsm2 with rfl | hsm3
    · exact h1
    rcases List.mem_cons.mp hsm3 with rfl | hsm4
    · exact h2
    · exact absurd hsm4 (by simp)
  obtain ⟨t_std, nf2, heval, _b1, b2, b3, b4, b5⟩ :=
    voidStdFds_props keep [0, 1, 2] (closefrom3 keep t) none (by decide) hopen3
      (fun f hf => Option.noConfusion hf)
  have hkeep1 : ∀ k ∈ keep, lookupFd (closefrom3 keep t) k = lookupFd t k := by
    intro k hk
    rw [hcf k, if_pos (Or.inr hk)]
  have hstd_keep : ∀ k ∈ keep, lookupFd t_std k = lookupFd t k := by
    intro k hk
    by_cases hk3 : k ∈ [0, 1, 2]
    · rw [b5 k hk3 hk, hkeep1 k hk]
    · rw [b3 k hk3 ?_, hkeep1 k hk]
      intro f hf hc
      rcases b2 f hf with h | ⟨hfe, _⟩
      · exact Option.noConfusion h
      · subst hc
        exact (hkeep1 k hk ▸ hkeep k hk) hfe
  have hdrop : ∀ x, lookupFd (closefrom3 keep t) x ≠ none →
      lookupFd (dropNull (t_std, nf2)) x = lookupFd t_std x := by
    intro x hx
    cases hnf2 : nf2 with
    | none => rfl
    | some f =>
      have hxf : x ≠ f := by
        rcases b2 f hnf2 with h | ⟨hfe, _⟩
        · exact Option.noConfusion h
        · intro hc
          exact hx (hc ▸ hfe)
      show lookupFd (removeFd t_std f) x = lookupFd t_std x
      rw [lookupFd_removeFd, if_neg hxf]
  obtain ⟨t3, hclear, c1, c2⟩ := clearCloexec_spec keep (dropNull (t_std, nf2))
    (fun k hk => by
      rw [hdrop k (by rw [hkeep1 k hk]; exact hkeep k hk), hstd_keep k hk]
      exact hkeep k hk)
  refine ⟨t3, ?_, ?_, ?_, ?_⟩
  · rw [void_file_descriptors, heval]
    exact hclear
  · intro fd hfd3 hfdk
    have hfdstds : fd ∉ [0, 1, 2] := by
      intro hc
      have := hmem3 fd hc
      omega
    rw [c1 fd hfdk]
    cases hnf2 : nf2 with
    | none =>
      show lookupFd t_std fd = none
      rw [b3 fd hfdstds (fun f hf => by rw [hnf2] at hf; exact Option.noConfusion hf),
        hcf fd, if_neg (by push_neg; exact ⟨by omega, hfdk⟩)]
    | some f =>
      by_cases hfdf : fd = f
      · show lookupFd (removeFd t_std f) fd = none
        rw [lookupFd_removeFd, if_pos hfdf]
      · show lookupFd (removeFd t_std f) fd = none
        rw [lookupFd_removeFd, if_neg hfdf,
          b3 fd hfdstds (fun g hg => by
            rw [hnf2] at hg
            injection hg with h
            intro hc
            exact hfdf (hc.trans h.symm)),
          hcf fd, if_neg (by push_neg; exact ⟨by omega, hfdk⟩)]
  · intro s hs3 hsk
    have hsm : s ∈ [0, 1, 2] := by
      have : s = 0 ∨ s = 1 ∨ s = 2 := by omega
      rcases this with rfl | rfl | rfl <;> decide
    have hsopen : lookupFd t s ≠ none := by
      rcases List.mem_cons.mp hsm with rfl | hsm2
      · exact h0
      rcases List.mem_cons.mp hsm2 with rfl | hsm3
      · exact h1
      rcases List.mem_cons.mp hsm3 with rfl | hsm4
      · exact h2
      · exact absurd hsm4 (by simp)
    rw [c1 s hsk, hdrop s (hopen3 s hsm), b4 s hsm hsk]
  · intro k hk
    obtain ⟨e2, hk1, hk2⟩ := c2 k hk
    rw [hdrop k (by rw [hkeep1 k hk]; exact hkeep k hk), hstd_keep k hk] at hk1
    exact ⟨e2, hk1, hk2⟩

/-! ## Packaging round-trip lemmas (claim C9) -/

theorem readLE_writeLE (k : Nat) (n : Nat) (r : List Nat) (h : n < 256 ^ k) :
    readLE k (writeLE k n ++ r) = some (n, r) := by
  induction k generalizing n with
  | zero =>
    simp only [Nat.pow_zero, Nat.lt_one_iff] at h
    subst h
    rfl
  | succ k ih =>
    have hdiv : n / 256 < 256 ^ k := by
      rw [Nat.div_lt_iff_lt_mul (by norm_num)]
      calc n < 256 ^ (k + 1) := h
        _ = 256 ^ k * 256 := by rw [Nat.pow_succ]
    have step : readLE (k + 1) (writeLE (k + 1) n ++ r)
        = (readLE k (writeLE k (n / 256) ++ r)).map
            (fun p => (n % 256 + 256 * p.1, p.2)) := rfl
    rw [step, ih (n / 256) hdiv]
    show some (n % 256 + 256 * (n / 256), r) = some (n, r)
    rw [Nat.mod_add_div]

theorem decodeVarint_encodeVarint (n : Nat) (r : List Nat) (h : n < 2 ^ 64) :
    decodeVarint (encodeVarint n ++ r) = some (n, r) := by
  unfold encodeVarint
  by_cases h1 : n < 251
  · simp [decodeVarint, h1]
  · by_cases h2 : n < 2 ^ 16
    · simp only [h1, if_false, h2, if_true, List.cons_append, decodeVarint]
      exact readLE_writeLE 2 n r (by norm_num at h2 ⊢; omega)
    · by_cases h3 : n < 2 ^ 32
      · simp only [h1, if_false, h2, if_false, h3, if_true, List.cons_append, decodeVarint]
        exact readLE_writeLE 4 n r (by norm_num at h3 ⊢; omega)
      · simp only [h1, if_false, h2, if_false, h3, if_false, List.cons_append, decodeVarint]
        exact readLE_writeLE 8 n r (by norm_num at h ⊢; omega)

theorem decodeU16_encodeVarint (n : Nat) (r : List Nat) (h : n < 2 ^ 16) :
    decodeU16 (encodeVarint n ++ r) = some (n, r) := by
  rw [decodeU16, decodeVarint_encodeVarint n r (lt_trans h (by norm_num))]
  show (if n < 2 ^ 16 then some ((n, r)) else none) = some (n, r)
  rw [if_pos h]

theorem readN_exact (l r : List Nat) : readN l.length (l ++ r) = some (l, r) := by
  rw [readN, if_pos (by simp)]
  rw [List.take_left, List.drop_left]

theorem decodeRStr_encodeRStr (s : RStr) (r : List Nat) (h : wfStr s = true) :
    decodeRStr (encodeRStr s ++ r) = some (s, r) := by
  obtain ⟨hlen, hutf⟩ := Bool.and_eq_true_iff.mp h
  rw [encodeRStr, List.append_assoc, decodeRStr,
    decodeVarint_encodeVarint s.length (s ++ r) (by simpa using hlen)]
  show ((readN s.length (s ++ r)).bind fun q =>
    if validUTF8 q.1 then some (q.1, q.2) else none) = some (s, r)
  rw [readN_exact]
  show (if validUTF8 s then some (s, r) else none) = some (s, r)
  rw [if_pos hutf]

theorem decodeOpt_encodeOpt {α : Type} (enc : α → List Nat)
    (dec : List Nat → Option (α × List Nat)) (x : Option α) (r : List Nat)
    (hdec : ∀ a, x = some a → dec (enc a ++ r) = some (a, r)) :
    decodeOpt dec (encodeOpt enc x ++ r) = some (x, r) := by
  cases x with
  | none => rfl
  | some a =>
    show decodeOpt dec (1 :: (enc a ++ r)) = some (some a, r)
    rw [decodeOpt, hdec a rfl]
    rfl

theorem decodeMany_encode {α : Type} (enc : α → List Nat)
    (dec : List Nat → Option (α × List Nat)) (l : List α) (r : List Nat)
    (hdec : ∀ a ∈ l, ∀ rest, dec (enc a ++ rest) = some (a, rest)) :
    decodeMany dec l.length ((l.map enc).flatten ++ r) = some (l, r) := by
  induction l with
  | nil => rfl
  | cons a l ih =>
    simp only [List.map_cons, List.flatten_cons, List.length_cons, List.append_assoc]
    rw [decodeMany, hdec a (List.mem_cons_self a l) ((l.map enc).flatten ++ r)]
    simp only [Option.some_bind]
    rw [ih (fun x hx rest => hdec x (List.mem_cons_of_mem a hx) rest)]
    rfl

theorem decodeListOf_encodeListOf {α : Type} (enc : α → List Nat)
    (dec : List Nat → Option (α × List Nat)) (l : List α) (r : List Nat)
    (hlen : l.length < 2 ^ 64)
    (hdec : ∀ a ∈ l, ∀ rest, dec (enc a ++ rest) = some (a, rest)) :
    decodeListOf dec (encodeListOf enc l ++ r) = some (l, r) := by
  rw [encodeListOf, List.append_assoc, decodeListOf,
    decodeVarint_encodeVarint l.length _ hlen]
  simp only [Option.some_bind]
  exact decodeMany_encode enc dec l r hdec

theorem decodeAddressFamily_encode (a : AddressFamily) (r : List Nat) :
    decodeAddressFamily (encodeAddressFamily a ++ r) = some (a, r) := by
  cases a <;> rfl

theorem decodeRpcFields_encode (family : Option AddressFamily) (port : Option Nat)
    (host : Option RStr) (r : List Nat)
    (hport : wfOpt (fun p => decide (p < 2 ^ 16)) port = true)
    (hhost : wfOpt wfStr host = true) :
    decodeRpcFields ((encodeOpt encodeAddressFamily family ++
      encodeOpt encodeVarint port ++ encodeOpt encodeRStr host) ++ r)
      = some ((family, port, host), r) := by
  rw [List.append_assoc, List.append_assoc, decodeRpcFields,
    decodeOpt_encodeOpt encodeAddressFamily decodeAddressFamily family _
      (fun a _ => decodeAddressFamily_encode a _)]
  show ((decodeOpt decodeU16
      (encodeOpt encodeVarint port ++ (encodeOpt encodeRStr host ++ r))).bind
    fun p2 => (decodeOpt decodeRStr p2.2).map fun p3 => ((family, p2.1, p3.1), p3.2))
      = some ((family, port, host), r)
  rw [decodeOpt_encodeOpt encodeVarint decodeU16 port _
    (fun pv hpv => decodeU16_encodeVarint pv _ (by
      subst hpv
      simpa [wfOpt] using hport))]
  show ((decodeOpt decodeRStr (encodeOpt encodeRStr host ++ r)).map
    fun p3 => ((family, port, p3.1), p3.2)) = some ((family, port, host), r)
  rw [decodeOpt_encodeOpt encodeRStr decodeRStr host _
    (fun hv hhv => decodeRStr_encodeRStr hv _ (by
      subst hhv
      simpa [wfOpt] using hhost))]
  rfl

theorem decodeRpc_encodeRpc (c : RpcSpecification) (r : List Nat)
    (h : wfRpcSpecification c = true) :
    decodeRpcSpecification (encodeRpcSpecification c ++ r) = some (c, r) := by
  cases c with
  | OpenTcpSocket family port host =>
    obtain ⟨hport, hhost⟩ := Bool.and_eq_true_iff.mp h
    show decodeRpcSpecification (0 :: ((encodeOpt encodeAddressFamily family ++
      encodeOpt encodeVarint port ++ encodeOpt encodeRStr host) ++ r))
      = some (.OpenTcpSocket family port host, r)
    show (decodeRpcFields ((encodeOpt encodeAddressFamily family ++
      encodeOpt encodeVarint port ++ encodeOpt encodeRStr host) ++ r)).map
        (fun p => (RpcSpecification.OpenTcpSocket p.1.1 p.1.2.1 p.1.2.2, p.2))
      = some (.OpenTcpSocket family port host, r)
    rw [decodeRpcFields_encode family port host r hport hhost]
    rfl
  | OpenUdpSocket family port host =>
    obtain ⟨hport, hhost⟩ := Bool.and_eq_true_iff.mp h
    show (decodeRpcFields ((encodeOpt encodeAddressFamily family ++
      encodeOpt encodeVarint port ++ encodeOpt encodeRStr host) ++ r)).map
        (fun p => (RpcSpecification.OpenUdpSocket p.1.1 p.1.2.1 p.1.2.2, p.2))
      = some (.OpenUdpSocket family port host, r)
    rw [decodeRpcFields_encode family port host r hport hhost]
    rfl

theorem decodeIpv4_encode (ip : Ipv4Addr) (r : List Nat) :
    decodeIpv4 (encodeIpv4 ip ++ r) = some (ip, r) := by
  cases ip
  rfl

theorem decodeIpv6_encode (ip : Ipv6Addr) (r : List Nat) :
    decodeIpv6 (encodeIpv6 ip ++ r) = some (ip, r) := by
  cases ip
  rfl

theorem decodeSocketAddr_encode (addr : SocketAddr) (r : List Nat)
    (h : wfSocketAddr addr = true) :
    decodeSocketAddr (encodeSocketAddr addr ++ r) = some (addr, r) := by
  cases addr with
  | V4 ip port =>
    have hp : port < 2 ^ 16 := by simpa [wfSocketAddr] using h
    show ((decodeIpv4 ((encodeIpv4 ip ++ encodeVarint port) ++ r)).bind fun p =>
      (decodeU16 p.2).map fun q => (SocketAddr.V4 p.1 q.1, q.2)) = some (.V4 ip port, r)
    rw [List.append_assoc, decodeIpv4_encode ip _]
    show ((decodeU16 (encodeVarint port ++ r)).map
      fun q => (SocketAddr.V4 ip q.1, q.2)) = some (.V4 ip port, r)
    rw [decodeU16_encodeVarint port r hp]
    rfl
  | V6 ip port =>
    have hp : port < 2 ^ 16 := by simpa [wfSocketAddr] using h
    show ((decodeIpv6 ((encodeIpv6 ip ++ encodeVarint port) ++ r)).bind fun p =>
      (decodeU16 p.2).map fun q => (SocketAddr.V6 p.1 q.1, q.2)) = some (.V6 ip port, r)
    rw [List.append_assoc, decodeIpv6_encode ip _]
    show ((decodeU16 (encodeVarint port ++ r)).map
      fun q => (SocketAddr.V6 ip q.1, q.2)) = some (.V6 ip port, r)
    rw [decodeU16_encodeVarint port r hp]
    rfl

theorem decodePipe_encodePipe (p : Pipe) (r : List Nat)
    (h : wfStr p.get_name = true) :
    decodePipe (encodePipe p ++ r) = some (p, r) := by
  cases p with
  | Rx s =>
    show ((decodeRStr (encodeRStr s ++ r)).map fun p => (Pipe.Rx p.1, p.2))
      = some (.Rx s, r)
    rw [decodeRStr_encodeRStr s r h]
    rfl
  | Tx s =>
    show ((decodeRStr (encodeRStr s ++ r)).map fun p => (Pipe.Tx p.1, p.2))
      = some (.Tx s, r)
    rw [decodeRStr_encodeRStr s r h]
    rfl

theorem decodeFileSocket_encodeFileSocket (fs : FileSocket) (r : List Nat)
    (h : wfStr fs.get_name = true) :
    decodeFileSocket (encodeFileSocket fs ++ r) = some (fs, r) := by
  cases fs with
  | Rx s =>
    show ((decodeRStr (encodeRStr s ++ r)).map fun p => (FileSocket.Rx p.1, p.2))
      = some (.Rx s, r)
    rw [decodeRStr_encodeRStr s r h]
    rfl
  | Tx s =>
    show ((decodeRStr (encodeRStr s ++ r)).map fun p => (FileSocket.Tx p.1, p.2))
      = some (.Tx s, r)
    rw [decodeRStr_encodeRStr s r h]
    rfl

theorem decodeTrigger_encodeTrigger (tr : Trigger) (r : List Nat)
    (h : wfTrigger tr = true) :
    decodeTrigger (encodeTrigger tr ++ r) = some (tr, r) := by
  cases tr with
  | Startup => rfl
  | Pipe s =>
    show ((decodeRStr (encodeRStr s ++ r)).map fun p => (Trigger.Pipe p.1, p.2))
      = some (.Pipe s, r)
    rw [decodeRStr_encodeRStr s r (by simpa [wfTrigger] using h)]
    rfl
  | FileSocket s =>
    show ((decodeRStr (encodeRStr s ++ r)).map fun p => (Trigger.FileSocket p.1, p.2))
      = some (.FileSocket s, r)
    rw [decodeRStr_encodeRStr s r (by simpa [wfTrigger] using h)]
    rfl

theorem decodeArg_encodeArg (a : Arg) (r : List Nat) (h : wfArg a = true) :
    decodeArg (encodeArg a ++ r) = some (a, r) := by
  cases a with
  | BinaryName => rfl
  | Entrypoint => rfl
  | File path =>
    show ((decodeRStr (encodeRStr path ++ r)).map fun p => (Arg.File p.1, p.2))
      = some (.File path, r)
    rw [decodeRStr_encodeRStr path r (by simpa [wfArg] using h)]
    rfl
  | Pipe p =>
    show ((decodePipe (encodePipe p ++ r)).map fun q => (Arg.Pipe q.1, q.2))
      = some (.Pipe p, r)
    rw [decodePipe_encodePipe p r (by simpa [wfArg] using h)]
    rfl
  | FileSocket fs =>
    show ((decodeFileSocket (encodeFileSocket fs ++ r)).map
      fun q => (Arg.FileSocket q.1, q.2)) = some (.FileSocket fs, r)
    rw [decodeFileSocket_encodeFileSocket fs r (by simpa [wfArg] using h)]
    rfl
  | Trigger => rfl
  | TcpListener addr =>
    show ((decodeSocketAddr (encodeSocketAddr addr ++ r)).map
      fun q => (Arg.TcpListener q.1, q.2)) = some (.TcpListener addr, r)
    rw [decodeSocketAddr_encode addr r (by simpa [wfArg] using h)]
    rfl
  | Rpc cmds =>
    have hwf := h
    rw [wfArg, wfList, Bool.and_eq_true_iff] at hwf
    show ((decodeListOf decodeRpcSpecification
      (encodeListOf encodeRpcSpecification cmds ++ r)).map
        fun q => (Arg.Rpc q.1, q.2)) = some (.Rpc cmds, r)
    rw [decodeListOf_encodeListOf encodeRpcSpecification decodeRpcSpecification cmds r
      (by simpa using hwf.1)
      (fun c hc rest => decodeRpc_encodeRpc c rest
        (by
          have := List.all_eq_true.mp hwf.2 c hc
          simpa using this))]
    rfl
  | Trailing => rfl

theorem decodeEnvironment_encodeEnvironment (env : Environment) (r : List Nat)
    (h : wfEnvironment env = true) :
    decodeEnvironment (encodeEnvironment env ++ r) = some (env, r) := by
  cases env with
  | Filesystem host envp =>
    obtain ⟨hh, he⟩ := Bool.and_eq_true_iff.mp (by simpa [wfEnvironment] using h)
    show ((decodeRStr ((encodeRStr host ++ encodeRStr envp) ++ r)).bind fun p =>
      (decodeRStr p.2).map fun q => (Environment.Filesystem p.1 q.1, q.2))
      = some (.Filesystem host envp, r)
    rw [List.append_assoc, decodeRStr_encodeRStr host _ hh]
    show ((decodeRStr (encodeRStr envp ++ r)).map
      fun q => (Environment.Filesystem host q.1, q.2)) = some (.Filesystem host envp, r)
    rw [decodeRStr_encodeRStr envp r he]
    rfl
  | Hostname s =>
    show ((decodeRStr (encodeRStr s ++ r)).map fun p => (Environment.Hostname p.1, p.2))
      = some (.Hostname s, r)
    rw [decodeRStr_encodeRStr s r (by simpa [wfEnvironment] using h)]
    rfl
  | DomainName s =>
    show ((decodeRStr (encodeRStr s ++ r)).map fun p => (Environment.DomainName p.1, p.2))
      = some (.DomainName s, r)
    rw [decodeRStr_encodeRStr s r (by simpa [wfEnvironment] using h)]
    rfl
  | Procfs => rfl
  | Stdin => rfl
  | Stdout => rfl
  | Stderr => rfl

theorem decodeEntrypoint_encodeEntrypoint (e : Entrypoint) (r : List Nat)
    (h : wfEntrypoint e = true) :
    decodeEntrypoint (encodeEntrypoint e ++ r) = some (e, r) := by
  rw [wfEntrypoint, Bool.and_eq_true_iff, Bool.and_eq_true_iff] at h
  obtain ⟨⟨htr, hargs⟩, henv⟩ := h
  rw [wfList, Bool.and_eq_true_iff] at hargs henv
  rw [encodeEntrypoint, List.append_assoc, List.append_assoc, decodeEntrypoint,
    decodeTrigger_encodeTrigger e.trigger _ htr]
  show ((decodeListOf decodeArg (encodeListOf encodeArg e.args ++
      (encodeListOf encodeEnvironment e.environment ++ r))).bind fun q =>
    (decodeListOf decodeEnvironment q.2).map fun p =>
      ({ trigger := e.trigger, args := q.1, environment := p.1 }, p.2))
    = some (e, r)
  rw [decodeListOf_encodeListOf encodeArg decodeArg e.args _
    (by simpa using hargs.1)
    (fun a ha rest => decodeArg_encodeArg a rest (List.all_eq_true.mp hargs.2 a ha))]
  show ((decodeListOf decodeEnvironment (encodeListOf encodeEnvironment e.environment ++ r)).map
    fun p => ({ trigger := e.trigger, args := e.args, environment := p.1 }, p.2))
    = some (e, r)
  rw [decodeListOf_encodeListOf encodeEnvironment decodeEnvironment e.environment r
    (by simpa using henv.1)
    (fun env henv2 rest => decodeEnvironment_encodeEnvironment env rest
      (List.all_eq_true.mp henv.2 env henv2))]
  rfl

theorem decodeEntry_encodeEntry (kv : RStr × Entrypoint) (r : List Nat)
    (h : (wfStr kv.1 && wfEntrypoint kv.2) = true) :
    decodeEntry (encodeEntry kv ++ r) = some (kv, r) := by
  obtain ⟨hk, hv⟩ := Bool.and_eq_true_iff.mp h
  rw [encodeEntry, List.append_assoc, decodeEntry, decodeRStr_encodeRStr kv.1 _ hk]
  show ((decodeEntrypoint (encodeEntrypoint kv.2 ++ r)).map
    fun q => ((kv.1, q.1), q.2)) = some (kv, r)
  rw [decodeEntrypoint_encodeEntrypoint kv.2 r hv]
  rfl

theorem decodeSpecification_encodeSpecification (spec : Specification) (r : List Nat)
    (h : wfSpecification spec = true) :
    decodeSpecification (encodeSpecification spec ++ r) = some (spec, r) := by
  rw [wfSpecification, wfList, Bool.and_eq_true_iff] at h
  rw [encodeSpecification, decodeSpecification,
    decodeListOf_encodeListOf encodeEntry decodeEntry spec.entrypoints r
      (by simpa using h.1)
      (fun kv hkv rest => decodeEntry_encodeEntry kv rest
        (List.all_eq_true.mp h.2 kv hkv))]
  rfl

theorem find?_append_of_none {α : Type} (p : α → Bool) (l1 l2 : List α)
    (h : ∀ x ∈ l1, ¬ p x = true) : (l1 ++ l2).find? p = l2.find? p := by
  induction l1 with
  | nil => rfl
  | cons a l1 ih =>
    rw [List.cons_append, List.find?_cons_of_neg]
    · exact ih fun x hx => h x (List.mem_cons_of_mem a hx)
    · exact fun hc => h a (List.mem_cons_self a l1) hc

/-- C9 (counterexample): pack-then-extract is not a round trip for every
binary: on a binary that already contains a `void_specification` section
(here with unparseable contents), `section_by_name` finds the pre-existing
section first, and extraction fails with a bincode error instead of
returning the packed specification. -/
theorem pack_extract_not_roundtrip :
    extract_specification (pack_binary prePackedBinary emptySpec) = .error .Bincode ∧
    extract_specification (pack_binary prePackedBinary emptySpec)
      ≠ .ok (some emptySpec) := by decide

/-- C9 (amended): for every specification (well-formed in the sense the Rust
types force: `u8`/`u16` ranges, UTF-8 strings, `usize` lengths) and every
binary with no pre-existing `void_specification` section, packing the
specification into the binary and then extracting yields `Ok(Some(spec))`
structurally equal to the input. -/
theorem pack_extract_roundtrip (spec : Specification) (binary : ObjectFile)
    (hwf : wfSpecification spec = true)
    (hfree : ∀ sec ∈ binary.sections, sec.name ≠ specificationSectionName) :
    extract_specification (pack_binary binary spec) = .ok (some spec) := by
  rw [extract_specification, pack_binary]
  rw [find?_append_of_none _ binary.sections _
    (fun sec hs => by simpa using hfree sec hs)]
  rw [List.find?_cons_of_pos _ (by simp)]
  have hdec : decodeSpecification (encodeSpecification spec) = some (spec, []) := by
    have := decodeSpecification_encodeSpecification spec [] hwf
    rwa [List.append_nil] at this
  show (match decodeSpecification (encodeSpecification spec) with
    | some (spec2, []) => Except.ok (some spec2)
    | _ => Except.error Error.Bincode) = Except.ok (some spec)
  rw [hdec]

theorem pack_extract_roundtrip_witness :
    wfSpecification specPipeGood = true ∧
    extract_specification (pack_binary plainBinary specPipeGood)
      = .ok (some specPipeGood) :=
  ⟨by decide, pack_extract_roundtrip specPipeGood plainBinary (by decide) (by decide)⟩

theorem void_file_descriptors_spec_witness :
    ∃ t2, void_file_descriptors [4]
        [(0, ⟨.orig 0, false⟩), (1, ⟨.orig 1, false⟩), (2, ⟨.orig 2, false⟩),
         (4, ⟨.orig 4, true⟩), (7, ⟨.orig 7, false⟩)] = .ok t2 ∧
      (∀ fd, 3 ≤ fd → fd ∉ [4] → lookupFd t2 fd = none) ∧
      (∀ s, s < 3 → s ∉ [4] → lookupFd t2 s = some ⟨.devnull, false⟩) ∧
      (∀ k ∈ [4], ∃ e,
        lookupFd [(0, ⟨FdTarget.orig 0, false⟩), (1, ⟨.orig 1, false⟩),
          (2, ⟨.orig 2, false⟩), (4, ⟨.orig 4, true⟩), (7, ⟨.orig 7, false⟩)] k = some e ∧
        lookupFd t2 k = some ⟨e.target, false⟩) :=
  void_file_descriptors_spec [4]
    [(0, ⟨.orig 0, false⟩), (1, ⟨.orig 1, false⟩), (2, ⟨.orig 2, false⟩),
     (4, ⟨.orig 4, true⟩), (7, ⟨.orig 7, false⟩)]
    (by decide) (by decide) (by decide) (by decide)

end VO
